import Mathlib

set_option autoImplicit false

/-!
Verification development for the Site Tomograph crawl engine
(`src/crawler.py`).  The definitions below are a shallow embedding of the
Python source: pure helpers (`_normalize_url` together with the parts of
`urllib.parse` it calls) become Lean functions on `List Char` / `String`;
the stateful crawl loop (`SiteCrawler.scan`) becomes an explicit
state-passing step function whose external effects (HTTP fetches, robots
rules, random jitter) are supplied by oracles; the emitted events are
collected into a list.

Modelling notes, recorded once here:
* `urllib.parse` is modelled after CPython 3.11 (`urlsplit`, `urljoin`,
  `urlunsplit`), restricted to inputs without `;params`, without
  control/whitespace characters (stripped by CPython before parsing) and
  without bracketed IPv6 hosts (CPython raises on malformed ones; the
  crawler converts such exceptions to `None`).  No claim touches these.
* `random.uniform(0, base_delay)` is modelled by a rational-valued jitter
  oracle; its mathematical range `[0, base_delay)` is taken as a
  hypothesis where needed.
* Python's `list(set(links))` deduplication has unspecified order; it is
  modelled by `dedupKeepFirst`.  No claim depends
  on link order.
-/

/-- Characters admissible in a URL scheme after the first one:
CPython's `scheme_chars` (ASCII letters, digits, `+`, `-`, `.`). -/
def isSchemeChar (c : Char) : Bool :=
  c.isAlpha || c.isDigit || c = '+' || c = '-' || c = '.'

/-- Split a list at the first occurrence of `stop`, returning the part
before it and (when found) the part after it.  Models Python's
`s.split(stop, 1)` / `s.find(stop)`. -/
def splitFirst (stop : Char) : List Char → List Char × Option (List Char)
  | [] => ([], none)
  | c :: cs =>
    if c = stop then ([], some cs)
    else
      let r := splitFirst stop cs
      (c :: r.1, r.2)

/-- Take characters until one satisfying `stop` is met; return the taken
part and the rest (which starts with the stopping character if any). -/
def spanUntil (stop : Char → Bool) : List Char → List Char × List Char
  | [] => ([], [])
  | c :: cs =>
    if stop c then ([], c :: cs)
    else
      let r := spanUntil stop cs
      (c :: r.1, r.2)

/-- Split on every occurrence of `sep`; always returns at least one
(possibly empty) piece, like Python's `s.split(sep)`. -/
def splitAll (sep : Char) : List Char → List (List Char)
  | [] => [[]]
  | c :: cs =>
    if c = sep then [] :: splitAll sep cs
    else
      match splitAll sep cs with
      | h :: t => (c :: h) :: t
      | [] => [[c]]

/-- Result of `urllib.parse.urlsplit` (the `params` component of
`urlparse` is elided; see the header note). -/
structure Parsed where
  scheme : List Char
  netloc : List Char
  path : List Char
  query : List Char
  fragment : List Char
deriving Repr, DecidableEq

/-- Scheme-extraction step of CPython `urlsplit`: the text before the
first `:` is a scheme when it is nonempty, starts with an ASCII letter
and consists of `scheme_chars` only; it is then lowercased. -/
def extractScheme (l : List Char) : List Char × List Char :=
  match splitFirst ':' l with
  | (pre, some rest) =>
    match pre with
    | [] => ([], l)
    | c :: _ =>
      if c.isAlpha && pre.all isSchemeChar then (pre.map Char.toLower, rest)
      else ([], l)
  | (_, none) => ([], l)

/-- Characters terminating the netloc in CPython `_splitnetloc`. -/
def isNetlocStop (c : Char) : Bool :=
  c = '/' || c = '?' || c = '#'

/-- Model of CPython 3.11 `urlsplit url defaultScheme` (with
`allow_fragments=True`): extract scheme, then `//netloc`, then fragment,
then query; the remainder is the path. -/
def urlsplitL (l : List Char) (defaultScheme : List Char) : Parsed :=
  let s := extractScheme l
  let scheme := if s.1 = [] then defaultScheme else s.1
  let r := s.2
  let n :=
    if r.take 2 = ['/', '/'] then spanUntil isNetlocStop (r.drop 2)
    else ([], r)
  let netloc := n.1
  let f := splitFirst '#' n.2
  let fragment := (f.2).getD []
  let q := splitFirst '?' f.1
  let query := (q.2).getD []
  { scheme := scheme, netloc := netloc, path := q.1,
    query := query, fragment := fragment }

/-- CPython 3.11 `uses_relative` scheme list. -/
def usesRelative : List (List Char) :=
  ["", "ftp", "http", "gopher", "nntp", "imap", "wais", "file", "https",
   "shttp", "mms", "prospero", "rtsp", "rtsps", "rtspu", "sftp", "svn",
   "svn+ssh", "ws", "wss"].map String.data

/-- CPython 3.11 `uses_netloc` scheme list. -/
def usesNetloc : List (List Char) :=
  ["", "ftp", "http", "gopher", "nntp", "telnet", "imap", "wais", "file",
   "mms", "https", "shttp", "snews", "prospero", "rtsp", "rtsps", "rtspu",
   "rsync", "svn", "svn+ssh", "sftp", "nfs", "git", "git+ssh", "ws",
   "wss"].map String.data

/-- Model of CPython 3.11 `urlunsplit`. -/
def urlunsplitL (p : Parsed) : List Char :=
  let url := p.path
  let url :=
    if p.netloc ≠ [] ∨
        (p.scheme ≠ [] ∧ p.scheme ∈ usesNetloc ∧ url.take 2 ≠ ['/', '/']) then
      let url := if url ≠ [] ∧ url.take 1 ≠ ['/'] then '/' :: url else url
      '/' :: '/' :: (p.netloc ++ url)
    else url
  let url := if p.scheme ≠ [] then p.scheme ++ ':' :: url else url
  let url := if p.query ≠ [] then url ++ '?' :: p.query else url
  if p.fragment ≠ [] then url ++ '#' :: p.fragment else url

/-- Middle-segment cleanup in `urljoin`:
`segments[1:-1] = filter(None, segments[1:-1])` (first and last pieces
are kept even when empty). -/
def filterSegTail : List (List Char) → List (List Char)
  | [] => []
  | [x] => [x]
  | x :: xs => if x = [] then filterSegTail xs else x :: filterSegTail xs

/-- Applies `filterSegTail` to everything after the first segment. -/
def filterSegs : List (List Char) → List (List Char)
  | [] => []
  | x :: xs => x :: filterSegTail xs

/-- Dot-segment resolution loop of `urljoin`: `..` pops (ignoring
underflow), `.` is skipped, everything else is appended; a trailing `.`
or `..` re-appends an empty segment. -/
def resolveSegs (segments : List (List Char)) : List (List Char) :=
  let r := segments.foldl
    (fun acc seg =>
      if seg = ['.', '.'] then acc.dropLast
      else if seg = ['.'] then acc
      else acc ++ [seg]) []
  match segments.getLast? with
  | some s => if s = ['.'] ∨ s = ['.', '.'] then r ++ [[]] else r
  | none => r

/-- Model of CPython 3.11 `urljoin base url` (with
`allow_fragments=True`, `params` elided). -/
def urljoinL (base url : List Char) : List Char :=
  if base = [] then url
  else if url = [] then base
  else
    let b := urlsplitL base []
    let u := urlsplitL url b.scheme
    if u.scheme ≠ b.scheme ∨ u.scheme ∉ usesRelative then url
    else if u.scheme ∈ usesNetloc ∧ u.netloc ≠ [] then
      urlunsplitL u
    else
      let netloc := if u.scheme ∈ usesNetloc then b.netloc else u.netloc
      if u.path = [] then
        let query := if u.query = [] then b.query else u.query
        urlunsplitL { scheme := u.scheme, netloc := netloc, path := b.path,
                      query := query, fragment := u.fragment }
      else
        let baseParts := splitAll '/' b.path
        let baseParts :=
          if baseParts.getLast? ≠ some [] then baseParts.dropLast
          else baseParts
        let segments :=
          if u.path.take 1 = ['/'] then splitAll '/' u.path
          else filterSegs (baseParts ++ splitAll '/' u.path)
        let resolved := resolveSegs segments
        let joined := List.intercalate ['/'] resolved
        let path := if joined = [] then ['/'] else joined
        urlunsplitL { scheme := u.scheme, netloc := netloc, path := path,
                      query := u.query, fragment := u.fragment }

/-- String-level wrapper for `urlsplit` with empty default scheme,
matching the bare `urlparse(...)` calls in the crawler. -/
def urlparseS (s : String) : Parsed :=
  urlsplitL s.data []

/-- Model of `SiteCrawler._normalize_url` (src/crawler.py:73-97):
resolve `url` against `base_url`, keep only http/https results on the
crawler's `base_domain`, drop query and fragment, and strip one trailing
slash when the parsed path is longer than one character.  The
`try/except` wrapper is not needed here because the modelled parsing
functions are total on the modelled input domain (see header note). -/
def normalizeUrl (baseDomain : String) (url : String) (base_url : String) :
    Option String :=
  let full := urljoinL base_url.data url.data
  let parsed := urlsplitL full []
  if ¬ (parsed.scheme = "http".data ∨ parsed.scheme = "https".data) then none
  else if parsed.netloc ≠ baseDomain.data then none
  else
    let normalized := parsed.scheme ++ ':' :: '/' :: '/' :: parsed.netloc ++ parsed.path
    let normalized :=
      if normalized.getLast? = some '/' ∧ parsed.path.length > 1 then
        normalized.dropLast
      else normalized
    some (String.mk normalized)

/-- Deduplication keeping the first occurrence of each element; models
Python's `list(set(links))` (whose order is unspecified; see the header
note). -/
def dedupKeepFirst : List String → List String
  | [] => []
  | x :: xs => x :: (dedupKeepFirst xs).filter (fun y => y ≠ x)

/-- Health classification of a fetched page (`"healthy"` / `"blockage"`
/ `"necrosis"` strings in the source). -/
inductive Status where
  | healthy
  | blockage
  | necrosis
deriving Repr, DecidableEq

/-- Result dictionary of `_fetch_page` / `_fetch_with_retry`; the
`error` key, present only in failure dictionaries, is an `Option`. -/
structure FetchResult where
  url : String
  status_code : Nat
  latency : Nat
  status : Status
  links : List String
  error : Option String
deriving Repr, DecidableEq

/-- Abstract outcome of one HTTP GET (the transport is an external
collaborator): a response with status, measured latency in ms and the
raw href strings the HTML extractor finds in the body; a timeout
(`asyncio.TimeoutError`, caught at src/crawler.py:226); or any other
exception caught at src/crawler.py:235, carrying its message. -/
inductive HttpOutcome where
  | response (status_code : Nat) (latency : Nat) (hrefs : List String)
  | timeout (latency : Nat)
  | failure (message : String)
deriving Repr, DecidableEq

/-- One attempt as seen by `_fetch_with_retry`: either `_fetch_page`
returns normally (it catches `asyncio.TimeoutError` and every
`Exception` itself), or an exception escapes `_fetch_page`'s handlers
(only `BaseException`s that are not `Exception`s can) and reaches the
`except` clause at src/crawler.py:161. -/
inductive AttemptOutcome where
  | ok (h : HttpOutcome)
  | raised (message : String)
deriving Repr, DecidableEq

/-- Constructor mirroring `SiteCrawler.__init__` (src/crawler.py:26-71):
the configuration fields plus the derived `base_domain` and
`base_scheme` (`parsed.scheme or "https"`). -/
structure SiteCrawler where
  start_url : String
  max_depth : Nat
  latency_threshold : Nat
  max_concurrent : Nat
  max_pages : Nat
  request_delay : ℚ
  max_retries : Nat
  respect_robots : Bool
  base_domain : String
  base_scheme : String
deriving Repr, DecidableEq

/-- Builds a `SiteCrawler` the way `__init__` does, deriving
`base_domain` and `base_scheme` from `start_url`. -/
def mkSiteCrawler (start_url : String) (max_depth : Nat)
    (latency_threshold : Nat) (max_concurrent : Nat) (max_pages : Nat)
    (request_delay : ℚ) (max_retries : Nat) (respect_robots : Bool) :
    SiteCrawler :=
  let parsed := urlparseS start_url
  { start_url := start_url, max_depth := max_depth,
    latency_threshold := latency_threshold, max_concurrent := max_concurrent,
    max_pages := max_pages, request_delay := request_delay,
    max_retries := max_retries, respect_robots := respect_robots,
    base_domain := String.mk parsed.netloc,
    base_scheme := if parsed.scheme = [] then "https" else String.mk parsed.scheme }

/-- A `SiteCrawler` with the default keyword arguments of `__init__`. -/
def defaultCrawler (start_url : String) : SiteCrawler :=
  mkSiteCrawler start_url 3 2000 3 50 (1/2) 3 true

/-- Model of `SiteCrawler._can_fetch` (src/crawler.py:123-130); the
parsed robots rules (an external collaborator loaded once per crawl)
are abstracted as an optional predicate. -/
def canFetchB (c : SiteCrawler) (robotsRules : Option (String → Bool))
    (url : String) : Bool :=
  if ¬ c.respect_robots ∨ robotsRules.isNone then true
  else
    match robotsRules with
    | some can => can url
    | none => true

/-- Model of `SiteCrawler._fetch_page` (src/crawler.py:178-243): on a
response, classify (status ≥ 400 necrosis, else latency above threshold
blockage, else healthy) and, only for status 200, normalize the
extracted hrefs, drop self-links and deduplicate; a timeout becomes a
408 necrosis result; a caught exception becomes a status 0 necrosis
result carrying the message. -/
def fetchPage (c : SiteCrawler) (url : String) (h : HttpOutcome) :
    FetchResult :=
  match h with
  | .response status_code latency hrefs =>
    let status :=
      if status_code ≥ 400 then Status.necrosis
      else if latency > c.latency_threshold then Status.blockage
      else Status.healthy
    let links :=
      if status_code = 200 then
        dedupKeepFirst
          ((hrefs.filterMap (fun href => normalizeUrl c.base_domain href url)).filter
            (fun link => link ≠ url))
      else []
    { url := url, status_code := status_code, latency := latency,
      status := status, links := links, error := none }
  | .timeout latency =>
    { url := url, status_code := 408, latency := latency,
      status := Status.necrosis, links := [], error := none }
  | .failure message =>
    { url := url, status_code := 0, latency := 0,
      status := Status.necrosis, links := [], error := some message }

/-- The temporary-error status codes retried at src/crawler.py:152. -/
def retryCodes : List Nat := [500, 502, 503, 504]

/-- Fallback dictionary returned when every attempt of
`_fetch_with_retry` failed (src/crawler.py:169-176). -/
def retryFallback (url : String) (lastError : Option String) : FetchResult :=
  { url := url, status_code := 0, latency := 0, status := Status.necrosis,
    links := [],
    error := some (lastError.getD "重試次數已達上限") }

/-- Loop body of `_fetch_with_retry` (src/crawler.py:147-176).
`remaining` counts the iterations left of `for attempt in
range(max_retries)` (so it equals `max_retries - attempt`), `outcomes`
supplies each attempt's result, `jitter a` stands for the value drawn by
`random.uniform(0, 2 ** a)`.  Returns the result, the number of attempts
consumed, and the list of back-off sleeps performed (in seconds). -/
def fetchWithRetryGo (c : SiteCrawler) (url : String)
    (outcomes : Nat → AttemptOutcome) (jitter : Nat → ℚ) :
    Nat → Nat → Option String → FetchResult × Nat × List ℚ
  | 0, attempt, lastError => (retryFallback url lastError, attempt, [])
  | remaining + 1, attempt, lastError =>
    match outcomes attempt with
    | .ok h =>
      let result := fetchPage c url h
      if result.status_code ∈ retryCodes ∧ attempt < c.max_retries - 1 then
        let r := fetchWithRetryGo c url outcomes jitter remaining (attempt + 1) lastError
        (r.1, r.2.1, ((2 : ℚ) ^ attempt + jitter attempt) :: r.2.2)
      else (result, attempt + 1, [])
    | .raised e =>
      let r := fetchWithRetryGo c url outcomes jitter remaining (attempt + 1) (some e)
      if attempt < c.max_retries - 1 then
        (r.1, r.2.1, ((2 : ℚ) ^ attempt + jitter attempt) :: r.2.2)
      else r

/-- Model of `_fetch_with_retry` with its observable trace (result,
attempts consumed, sleeps performed). -/
def fetchWithRetryTrace (c : SiteCrawler) (url : String)
    (outcomes : Nat → AttemptOutcome) (jitter : Nat → ℚ) :
    FetchResult × Nat × List ℚ :=
  fetchWithRetryGo c url outcomes jitter c.max_retries 0 none

/-- The dictionary `_fetch_with_retry` returns to `scan`. -/
def fetchWithRetry (c : SiteCrawler) (url : String)
    (outcomes : Nat → AttemptOutcome) (jitter : Nat → ℚ) : FetchResult :=
  (fetchWithRetryTrace c url outcomes jitter).1

/-- The four event records yielded by `SiteCrawler.scan`. -/
inductive Event where
  | node_discovered (id : String) (url : String) (depth : Nat)
  | link_discovered (source : String) (target : String)
  | diagnosis_update (id : String) (url : String) (status_code : Nat)
      (latency : Nat) (status : Status)
  | limit_reached (message : String)
deriving Repr, DecidableEq

/-- One entry of `self.nodes` — the dict key and the stored dictionary
`the id, depth and the merged-in fetch result` (src/crawler.py:312). -/
structure NodeRec where
  url : String
  id : String
  depth : Nat
  result : FetchResult
deriving Repr, DecidableEq

/-- One entry of `self.links` (src/crawler.py:297-301). -/
structure LinkEdge where
  source : String
  target : String
deriving Repr, DecidableEq

/-- The `self.stats` counters (src/crawler.py:59-64). -/
structure Stats where
  total_pages : Nat
  dead_links : Nat
  slow_pages : Nat
  orphan_pages : Nat
deriving Repr, DecidableEq

/-- The mutable crawl state of a `SiteCrawler` instance.  `visited` is
Python's set of strings (only membership is observed, so a list
suffices); `nodes` is the insertion-ordered dict as an association
list; `links` and `stats` are as in the source. -/
structure ScanState where
  visited : List String
  nodes : List NodeRec
  links : List LinkEdge
  stats : Stats
deriving Repr, DecidableEq

/-- The state a freshly constructed `SiteCrawler` starts with. -/
def initState : ScanState :=
  { visited := [], nodes := [], links := [],
    stats := { total_pages := 0, dead_links := 0, slow_pages := 0,
               orphan_pages := 0 } }

/-- A queue entry `(url, depth, parent_url)` (src/crawler.py:256). -/
abbrev QItem := String × Nat × Option String

/-- The message of the `limit_reached` event (src/crawler.py:268). -/
def limitMessage (c : SiteCrawler) : String :=
  "已達到掃描上限（" ++ toString c.max_pages ++ " 頁），停止掃描以避免過度請求"

/-- The node id assigned at src/crawler.py:286. -/
def nodeIdStr (n : Nat) : String := "node_" ++ toString n

/-- The link-creation step at src/crawler.py:294-305: an edge and a
`link_discovered` event are produced only when the queue entry has a
truthy (non-`None`, nonempty) parent URL that is a recorded node key. -/
def linkStep (parent_url : Option String) (nodes : List NodeRec)
    (node_id : String) : List Event × List LinkEdge :=
  match parent_url with
  | some p =>
    if p ≠ "" then
      match nodes.find? (fun n => n.url = p) with
      | some parentNode =>
        ([Event.link_discovered parentNode.id node_id],
         [{ source := parentNode.id, target := node_id }])
      | none => ([], [])
    else ([], [])
  | none => ([], [])

/-- The statistics update at src/crawler.py:318-323. -/
def updateStats (stats : Stats) (st : Status) : Stats :=
  let statsA := { stats with total_pages := stats.total_pages + 1 }
  match st with
  | Status.necrosis => { statsA with dead_links := statsA.dead_links + 1 }
  | Status.blockage => { statsA with slow_pages := statsA.slow_pages + 1 }
  | Status.healthy => statsA

/-- Loop body of `SiteCrawler.scan` (src/crawler.py:263-342).  External
effects are oracles: `robotsRules` is the loaded robots policy,
`world i a` the outcome of attempt `a` of the fetch for the `i`-th
processed page, `jw i a` the jitter drawn there.  `fuel` bounds the
number of loop iterations so the recursion is structural; a run whose
returned flag is `true` ended exactly as the Python loop does (queue
exhausted, or the page cap reached), a `false` flag means the fuel ran
out mid-crawl.  Returns the yielded events, the final state and that
flag. -/
def scanLoop (c : SiteCrawler) (robotsRules : Option (String → Bool))
    (world : Nat → Nat → AttemptOutcome) (jw : Nat → Nat → ℚ) :
    Nat → List QItem → ScanState → List Event × ScanState × Bool
  | 0, queue, s => ([], s, queue.isEmpty)
  | _ + 1, [], s => ([], s, true)
  | fuel + 1, item :: rest, s =>
    if s.stats.total_pages ≥ c.max_pages then
      ([Event.limit_reached (limitMessage c)], s, true)
    else
      let current_url := item.1
      let depth := item.2.1
      let parent_url := item.2.2
      if current_url ∈ s.visited then
        scanLoop c robotsRules world jw fuel rest s
      else if ¬ canFetchB c robotsRules current_url then
        scanLoop c robotsRules world jw fuel rest s
      else
        let s1 : ScanState := { s with visited := current_url :: s.visited }
        let node_id := nodeIdStr s1.nodes.length
        let linkPart := linkStep parent_url s1.nodes node_id
        let result :=
          fetchWithRetry c current_url (world s.stats.total_pages)
            (jw s.stats.total_pages)
        let node : NodeRec :=
          { url := current_url, id := node_id, depth := depth,
            result := result }
        let statsB := updateStats s.stats result.status
        let children : List QItem :=
          if depth < c.max_depth then
            (result.links.filter (fun link => link ∉ s1.visited)).map
              (fun link => (link, depth + 1, some current_url))
          else []
        let s2 : ScanState :=
          { visited := s1.visited, nodes := s1.nodes ++ [node],
            links := s1.links ++ linkPart.2, stats := statsB }
        let recResult := scanLoop c robotsRules world jw fuel (rest ++ children) s2
        (Event.node_discovered node_id current_url depth ::
           (linkPart.1 ++
             Event.diagnosis_update node_id current_url result.status_code
               result.latency result.status :: recResult.1),
         recResult.2)

/-- Model of `SiteCrawler.scan`: run the loop from the seeded queue
`[(start_url, 0, None)]` and the fresh state. -/
def scan (c : SiteCrawler) (robotsRules : Option (String → Bool))
    (world : Nat → Nat → AttemptOutcome) (jw : Nat → Nat → ℚ)
    (fuel : Nat) : List Event × ScanState × Bool :=
  scanLoop c robotsRules world jw fuel [(c.start_url, 0, none)] initState

/-- Sort priority used by `generate_report`
(the `status_priority` lookup with default 2, src/crawler.py:361-374). -/
def statusPriority : Status → Nat
  | Status.necrosis => 0
  | Status.blockage => 1
  | Status.healthy => 2

/-- One record of the `pages` list of the final report. -/
structure PageRec where
  url : String
  status : Status
  status_code : Nat
  latency : Nat
  depth : Nat
deriving Repr, DecidableEq

/-- The final report dictionary (src/crawler.py:376-381). -/
structure Report where
  summary : Stats
  pages : List PageRec
  orphan_nodes : List String
  recommendations : List String
deriving Repr, DecidableEq

/-- Model of `SiteCrawler._generate_recommendations`
(src/crawler.py:383-405), evaluated on given stats. -/
def generateRecommendations (c : SiteCrawler) (stats : Stats) : List String :=
  let recs : List String := []
  let recs :=
    if stats.dead_links > 0 then
      recs ++ ["發現 " ++ toString stats.dead_links ++ " 個壞死連結，建議修復或移除"]
    else recs
  let recs :=
    if stats.slow_pages > 0 then
      recs ++ ["發現 " ++ toString stats.slow_pages ++ " 個高延遲頁面（> " ++
               toString c.latency_threshold ++ "ms），建議優化"]
    else recs
  let recs :=
    if stats.orphan_pages > 0 then
      recs ++ ["發現 " ++ toString stats.orphan_pages ++ " 個孤兒頁面，建議建立內部連結"]
    else recs
  if recs = [] then ["網站結構健康，未發現明顯問題"] else recs

/-- The strict comparison on the sort key `(status_priority, depth)`
(src/crawler.py:374). -/
def pageLT (a b : PageRec) : Bool :=
  statusPriority a.status < statusPriority b.status ∨
    (statusPriority a.status = statusPriority b.status ∧ a.depth < b.depth)

/-- Stable insertion: `x` is placed after exactly the elements strictly
smaller than it, so elements with equal keys keep their order. -/
def insertBy (lt : PageRec → PageRec → Bool) (x : PageRec) :
    List PageRec → List PageRec
  | [] => [x]
  | y :: ys => if lt y x then y :: insertBy lt x ys else x :: y :: ys

/-- Stable sort by a strict comparison; models Python's stable
`list.sort(key=...)`, whose output is determined by the key order and
stability. -/
def sortBy (lt : PageRec → PageRec → Bool) : List PageRec → List PageRec
  | [] => []
  | x :: xs => insertBy lt x (sortBy lt xs)

/-- Model of `SiteCrawler.generate_report` (src/crawler.py:344-381).
Python's in-degree dict, initialised to 0 for every node id and bumped
for every recorded link whose target is a node id, is read back only at
node ids, so it is modelled by counting links per id directly.  The
method mutates `self.stats["orphan_pages"]` while collecting orphans;
the returned pair is (report, state after those mutations), with the
report's `summary` the value of `self.stats` at return time. -/
def generateReport (c : SiteCrawler) (s : ScanState) : Report × ScanState :=
  let inDegree := fun (id : String) =>
    (s.links.filter (fun link => link.target = id)).length
  let orphans :=
    (s.nodes.filter (fun n => n.url ≠ c.start_url ∧ inDegree n.id = 0)).map
      (fun n => n.url)
  let stats1 :=
    { s.stats with orphan_pages := s.stats.orphan_pages + orphans.length }
  let all_pages := s.nodes.map (fun n =>
    ({ url := n.url, status := n.result.status,
       status_code := n.result.status_code, latency := n.result.latency,
       depth := n.depth } : PageRec))
  let sorted := sortBy pageLT all_pages
  ({ summary := stats1, pages := sorted, orphan_nodes := orphans,
     recommendations := generateRecommendations c stats1 },
   { s with stats := stats1 })

/-- Whether an attempt outcome triggers the retry branch inside
`_fetch_with_retry`: a 5xx-coded result returned by `_fetch_page`, or an
exception reaching the `except` clause. -/
def retryableOutcome (c : SiteCrawler) (url : String) : AttemptOutcome → Bool
  | .ok h => decide ((fetchPage c url h).status_code ∈ retryCodes)
  | .raised _ => true

/-- Characterisation of the retry loop: the number of attempts consumed
is bounded by `max_retries`; every attempt that was followed by another
one was retryable; a retryable attempt with budget left is always
followed by another one; and the recorded back-off sleeps are exactly
`2 ^ a + jitter a` for the non-final attempts `a`. -/
theorem fetchWithRetryGo_spec (c : SiteCrawler) (url : String)
    (outcomes : Nat → AttemptOutcome) (jitter : Nat → ℚ) :
    ∀ remaining attempt lastError, remaining + attempt = c.max_retries →
    (fetchWithRetryGo c url outcomes jitter remaining attempt lastError).2.1 ≤
        c.max_retries ∧
    (remaining = 0 →
      (fetchWithRetryGo c url outcomes jitter remaining attempt lastError).2.1 = attempt) ∧
    (0 < remaining →
      attempt + 1 ≤
        (fetchWithRetryGo c url outcomes jitter remaining attempt lastError).2.1) ∧
    (∀ a, attempt ≤ a →
      a + 1 < (fetchWithRetryGo c url outcomes jitter remaining attempt lastError).2.1 →
      retryableOutcome c url (outcomes a) = true) ∧
    (∀ a, attempt ≤ a →
      a < (fetchWithRetryGo c url outcomes jitter remaining attempt lastError).2.1 →
      retryableOutcome c url (outcomes a) = true → a + 1 < c.max_retries →
      a + 1 < (fetchWithRetryGo c url outcomes jitter remaining attempt lastError).2.1) ∧
    (fetchWithRetryGo c url outcomes jitter remaining attempt lastError).2.2 =
      (List.range' attempt
        ((fetchWithRetryGo c url outcomes jitter remaining attempt lastError).2.1 - 1 -
          attempt)).map (fun a => (2 : ℚ) ^ a + jitter a) := by
  intro remaining
  induction remaining with
  | zero =>
    intro attempt lastError h
    have heq : fetchWithRetryGo c url outcomes jitter 0 attempt lastError =
        (retryFallback url lastError, attempt, []) := by
      simp only [fetchWithRetryGo]
    rw [heq]
    dsimp only
    refine ⟨by omega, fun _ => rfl, by omega, ?_, ?_, ?_⟩
    · intro a ha ha2; omega
    · intro a ha ha2; omega
    · simp
  | succ rem IH =>
    intro attempt lastError h
    cases hOut : outcomes attempt with
    | ok hh =>
      by_cases hc : (fetchPage c url hh).status_code ∈ retryCodes ∧
          attempt < c.max_retries - 1
      · have heq : fetchWithRetryGo c url outcomes jitter (rem + 1) attempt lastError =
            ((fetchWithRetryGo c url outcomes jitter rem (attempt + 1) lastError).1,
             (fetchWithRetryGo c url outcomes jitter rem (attempt + 1) lastError).2.1,
             ((2 : ℚ) ^ attempt + jitter attempt) ::
               (fetchWithRetryGo c url outcomes jitter rem (attempt + 1) lastError).2.2) := by
          simp only [fetchWithRetryGo, hOut]
          rw [if_pos hc]
        rw [heq]
        dsimp only
        obtain ⟨h1, h2, h3, h4, h5, h6⟩ := IH (attempt + 1) lastError (by omega)
        have hrem : 0 < rem := by omega
        have hge : attempt + 2 ≤
            (fetchWithRetryGo c url outcomes jitter rem (attempt + 1) lastError).2.1 := by
          have := h3 hrem; omega
        refine ⟨h1, by omega, by omega, ?_, ?_, ?_⟩
        · intro a ha ha2
          rcases Nat.eq_or_lt_of_le ha with rfl | hlt
          · simp [retryableOutcome, hOut, hc.1]
          · exact h4 a (by omega) ha2
        · intro a ha ha2 hr hb
          rcases Nat.eq_or_lt_of_le ha with rfl | hlt
          · omega
          · exact h5 a (by omega) ha2 hr hb
        · rw [h6]
          have hn : (fetchWithRetryGo c url outcomes jitter rem (attempt + 1) lastError).2.1
              - 1 - attempt =
              ((fetchWithRetryGo c url outcomes jitter rem (attempt + 1) lastError).2.1
              - 1 - (attempt + 1)) + 1 := by omega
          rw [hn, List.range'_succ, List.map_cons]
      · have heq : fetchWithRetryGo c url outcomes jitter (rem + 1) attempt lastError =
            (fetchPage c url hh, attempt + 1, []) := by
          simp only [fetchWithRetryGo, hOut]
          rw [if_neg hc]
        rw [heq]
        dsimp only
        refine ⟨by omega, by omega, by omega, ?_, ?_, ?_⟩
        · intro a ha ha2; omega
        · intro a ha ha2 hr hb
          have haeq : a = attempt := by omega
          subst haeq
          rw [hOut] at hr
          simp only [retryableOutcome, decide_eq_true_eq] at hr
          exact absurd ⟨hr, by omega⟩ hc
        · simp
    | raised e =>
      by_cases hc : attempt < c.max_retries - 1
      · have heq : fetchWithRetryGo c url outcomes jitter (rem + 1) attempt lastError =
            ((fetchWithRetryGo c url outcomes jitter rem (attempt + 1) (some e)).1,
             (fetchWithRetryGo c url outcomes jitter rem (attempt + 1) (some e)).2.1,
             ((2 : ℚ) ^ attempt + jitter attempt) ::
               (fetchWithRetryGo c url outcomes jitter rem (attempt + 1) (some e)).2.2) := by
          simp only [fetchWithRetryGo, hOut]
          rw [if_pos hc]
        rw [heq]
        dsimp only
        obtain ⟨h1, h2, h3, h4, h5, h6⟩ := IH (attempt + 1) (some e) (by omega)
        have hrem : 0 < rem := by omega
        have hge : attempt + 2 ≤
            (fetchWithRetryGo c url outcomes jitter rem (attempt + 1) (some e)).2.1 := by
          have := h3 hrem; omega
        refine ⟨h1, by omega, by omega, ?_, ?_, ?_⟩
        · intro a ha ha2
          rcases Nat.eq_or_lt_of_le ha with rfl | hlt
          · simp [retryableOutcome, hOut]
          · exact h4 a (by omega) ha2
        · intro a ha ha2 hr hb
          rcases Nat.eq_or_lt_of_le ha with rfl | hlt
          · omega
          · exact h5 a (by omega) ha2 hr hb
        · rw [h6]
          have hn : (fetchWithRetryGo c url outcomes jitter rem (attempt + 1) (some e)).2.1
              - 1 - attempt =
              ((fetchWithRetryGo c url outcomes jitter rem (attempt + 1) (some e)).2.1
              - 1 - (attempt + 1)) + 1 := by omega
          rw [hn, List.range'_succ, List.map_cons]
      · have hrem : rem = 0 := by omega
        subst hrem
        have heq : fetchWithRetryGo c url outcomes jitter (0 + 1) attempt lastError =
            (retryFallback url (some e), attempt + 1, []) := by
          simp only [fetchWithRetryGo, hOut]
          rw [if_neg hc]
        rw [heq]
        dsimp only
        refine ⟨by omega, by omega, by omega, ?_, ?_, ?_⟩
        · intro a ha ha2; omega
        · intro a ha ha2 hr hb; omega
        · simp

/-- When every remaining attempt raises past `_fetch_page`, the loop
falls through and returns the fallback dictionary carrying the last
error (src/crawler.py:168-176). -/
theorem fetchWithRetryGo_all_raised (c : SiteCrawler) (url : String)
    (outcomes : Nat → AttemptOutcome) (jitter : Nat → ℚ) (err : Nat → String) :
    ∀ remaining attempt lastError, remaining + attempt = c.max_retries →
    (∀ a, attempt ≤ a → a < c.max_retries → outcomes a = .raised (err a)) →
    (fetchWithRetryGo c url outcomes jitter remaining attempt lastError).1 =
      retryFallback url
        (if remaining = 0 then lastError else some (err (c.max_retries - 1))) := by
  intro remaining
  induction remaining with
  | zero =>
    intro attempt lastError h hall
    simp [fetchWithRetryGo]
  | succ rem IH =>
    intro attempt lastError h hall
    have hOut : outcomes attempt = .raised (err attempt) :=
      hall attempt (le_refl attempt) (by omega)
    have hrec := IH (attempt + 1) (some (err attempt)) (by omega)
      (fun a ha ha2 => hall a (by omega) ha2)
    by_cases hc : attempt < c.max_retries - 1
    · have heq : fetchWithRetryGo c url outcomes jitter (rem + 1) attempt lastError =
          ((fetchWithRetryGo c url outcomes jitter rem (attempt + 1) (some (err attempt))).1,
           (fetchWithRetryGo c url outcomes jitter rem (attempt + 1) (some (err attempt))).2.1,
           ((2 : ℚ) ^ attempt + jitter attempt) ::
             (fetchWithRetryGo c url outcomes jitter rem (attempt + 1) (some (err attempt))).2.2) := by
        simp only [fetchWithRetryGo, hOut]
        rw [if_pos hc]
      rw [heq]
      dsimp only
      rw [hrec]
      have hrem : rem ≠ 0 := by omega
      simp only [if_neg hrem, Nat.succ_ne_zero, if_false]
    · have hrem : rem = 0 := by omega
      subst hrem
      have heq : fetchWithRetryGo c url outcomes jitter (0 + 1) attempt lastError =
          fetchWithRetryGo c url outcomes jitter 0 (attempt + 1) (some (err attempt)) := by
        simp only [fetchWithRetryGo, hOut]
        rw [if_neg hc]
      rw [heq, hrec]
      have hatt : attempt = c.max_retries - 1 := by omega
      simp [hatt]

/-- When every remaining attempt returns a retryable 5xx result, the
loop retries until the budget is gone and then returns the final 5xx
result itself (the `return result` at src/crawler.py:159). -/
theorem fetchWithRetryGo_all_5xx (c : SiteCrawler) (url : String)
    (outcomes : Nat → AttemptOutcome) (jitter : Nat → ℚ) (outs : Nat → HttpOutcome) :
    ∀ remaining attempt lastError, remaining + attempt = c.max_retries →
    0 < remaining →
    (∀ a, attempt ≤ a → a < c.max_retries →
      outcomes a = .ok (outs a) ∧ (fetchPage c url (outs a)).status_code ∈ retryCodes) →
    (fetchWithRetryGo c url outcomes jitter remaining attempt lastError).1 =
      fetchPage c url (outs (c.max_retries - 1)) := by
  intro remaining
  induction remaining with
  | zero => intro attempt lastError h h0 hall; omega
  | succ rem IH =>
    intro attempt lastError h h0 hall
    obtain ⟨hOut, h5xx⟩ := hall attempt (le_refl attempt) (by omega)
    by_cases hc : attempt < c.max_retries - 1
    · have heq : fetchWithRetryGo c url outcomes jitter (rem + 1) attempt lastError =
          ((fetchWithRetryGo c url outcomes jitter rem (attempt + 1) lastError).1,
           (fetchWithRetryGo c url outcomes jitter rem (attempt + 1) lastError).2.1,
           ((2 : ℚ) ^ attempt + jitter attempt) ::
             (fetchWithRetryGo c url outcomes jitter rem (attempt + 1) lastError).2.2) := by
        simp only [fetchWithRetryGo, hOut]
        rw [if_pos ⟨h5xx, hc⟩]
      rw [heq]
      dsimp only
      exact IH (attempt + 1) lastError (by omega) (by omega)
        (fun a ha ha2 => hall a (by omega) ha2)
    · have heq : fetchWithRetryGo c url outcomes jitter (rem + 1) attempt lastError =
          (fetchPage c url (outs attempt), attempt + 1, []) := by
        simp only [fetchWithRetryGo, hOut]
        rw [if_neg (fun hand => hc hand.2)]
      rw [heq]
      dsimp only
      have hatt : attempt = c.max_retries - 1 := by omega
      rw [hatt]

/-- Membership is preserved by `dedupKeepFirst`. -/
theorem mem_dedupKeepFirst {y : String} :
    ∀ {l : List String}, y ∈ dedupKeepFirst l → y ∈ l := by
  intro l
  induction l with
  | nil => intro hy; simp [dedupKeepFirst] at hy
  | cons x xs IH =>
    intro hy
    simp only [dedupKeepFirst, List.mem_cons] at hy
    rcases hy with rfl | hy
    · exact List.mem_cons_self _ _
    · exact List.mem_cons_of_mem _ (IH (List.mem_of_mem_filter hy))

/-- Every link in a `_fetch_page` result is an output of
`_normalize_url` against the fetched page's own URL. -/
theorem fetchPage_links_image (c : SiteCrawler) (url : String)
    (h : HttpOutcome) :
    ∀ link ∈ (fetchPage c url h).links,
      ∃ href, normalizeUrl c.base_domain href url = some link := by
  intro link hmem
  cases h with
  | response status_code latency hrefs =>
    simp only [fetchPage] at hmem
    by_cases h200 : status_code = 200
    · rw [if_pos h200] at hmem
      have h2 := List.mem_of_mem_filter (mem_dedupKeepFirst hmem)
      obtain ⟨href, _, hn⟩ := List.mem_filterMap.mp h2
      exact ⟨href, hn⟩
    · rw [if_neg h200] at hmem
      simp at hmem
  | timeout latency => simp [fetchPage] at hmem
  | failure message => simp [fetchPage] at hmem

/-- Every link in a `_fetch_with_retry` result is an output of
`_normalize_url` against the fetched page's own URL (the fallback
dictionary has no links at all). -/
theorem fetchWithRetry_links_image (c : SiteCrawler) (url : String)
    (outcomes : Nat → AttemptOutcome) (jitter : Nat → ℚ) :
    ∀ link ∈ (fetchWithRetry c url outcomes jitter).links,
      ∃ href, normalizeUrl c.base_domain href url = some link := by
  have main : ∀ remaining attempt lastError,
      ∀ link ∈ (fetchWithRetryGo c url outcomes jitter remaining attempt lastError).1.links,
      ∃ href, normalizeUrl c.base_domain href url = some link := by
    intro remaining
    induction remaining with
    | zero =>
      intro attempt lastError link hmem
      simp [fetchWithRetryGo, retryFallback] at hmem
    | succ rem IH =>
      intro attempt lastError link hmem
      rw [fetchWithRetryGo] at hmem
      cases hOut : outcomes attempt with
      | ok hh =>
        rw [hOut] at hmem
        dsimp only at hmem
        by_cases hc : (fetchPage c url hh).status_code ∈ retryCodes ∧
            attempt < c.max_retries - 1
        · rw [if_pos hc] at hmem
          exact IH (attempt + 1) lastError link hmem
        · rw [if_neg hc] at hmem
          exact fetchPage_links_image c url hh link hmem
      | raised e =>
        rw [hOut] at hmem
        dsimp only at hmem
        by_cases hc : attempt < c.max_retries - 1
        · rw [if_pos hc] at hmem
          exact IH (attempt + 1) (some e) link hmem
        · rw [if_neg hc] at hmem
          exact IH (attempt + 1) (some e) link hmem
  exact main c.max_retries 0 none

/-- `splitFirst` finds nothing when the character is absent. -/
theorem splitFirst_of_not_mem {stop : Char} :
    ∀ {l : List Char}, stop ∉ l → splitFirst stop l = (l, none) := by
  intro l
  induction l with
  | nil => intro _; rfl
  | cons c cs IH =>
    intro hmem
    have hc : ¬ c = stop := fun hcs => hmem (hcs ▸ List.mem_cons_self c cs)
    simp only [splitFirst, if_neg hc, IH (fun hh => hmem (List.mem_cons_of_mem c hh))]

/-- `splitFirst` splits at the first occurrence. -/
theorem splitFirst_append {stop : Char} :
    ∀ {xs : List Char}, stop ∉ xs → ∀ ys,
      splitFirst stop (xs ++ stop :: ys) = (xs, some ys) := by
  intro xs
  induction xs with
  | nil => intro _ ys; simp [splitFirst]
  | cons c cs IH =>
    intro hmem ys
    have hc : ¬ c = stop := fun hcs => hmem (hcs ▸ List.mem_cons_self c cs)
    simp only [List.cons_append, splitFirst, if_neg hc, List.append_eq]
    rw [IH (fun hh => hmem (List.mem_cons_of_mem c hh)) ys]

/-- The first component of `splitFirst` never contains the separator. -/
theorem splitFirst_fst_not_mem {stop : Char} :
    ∀ {l : List Char}, stop ∉ (splitFirst stop l).1 := by
  intro l
  induction l with
  | nil => simp [splitFirst]
  | cons c cs IH =>
    by_cases hc : c = stop
    · simp [splitFirst, hc]
    · simp only [splitFirst, if_neg hc, List.mem_cons]
      rintro (rfl | hh)
      · exact hc rfl
      · exact IH hh

/-- The first component of `splitFirst` is made of input characters. -/
theorem splitFirst_fst_subset {stop : Char} {ch : Char} :
    ∀ {l : List Char}, ch ∈ (splitFirst stop l).1 → ch ∈ l := by
  intro l
  induction l with
  | nil => simp [splitFirst]
  | cons c cs IH =>
    by_cases hc : c = stop
    · simp [splitFirst, hc]
    · simp only [splitFirst, if_neg hc, List.mem_cons]
      rintro (rfl | hh)
      · exact Or.inl rfl
      · exact Or.inr (IH hh)

/-- `splitFirst` keeps the head when it is not the separator. -/
theorem splitFirst_fst_cons {stop c : Char} {cs : List Char} (hc : ¬ c = stop) :
    (splitFirst stop (c :: cs)).1 = c :: (splitFirst stop cs).1 := by
  simp [splitFirst, if_neg hc]

/-- `spanUntil` takes the whole list when nothing stops it. -/
theorem spanUntil_all_false {stop : Char → Bool} :
    ∀ {l : List Char}, (∀ ch ∈ l, stop ch = false) → spanUntil stop l = (l, []) := by
  intro l
  induction l with
  | nil => intro _; rfl
  | cons c cs IH =>
    intro hall
    have hc : stop c = false := hall c (List.mem_cons_self c cs)
    simp [spanUntil, hc, IH (fun ch hh => hall ch (List.mem_cons_of_mem c hh))]

/-- `spanUntil` stops at the first stopping character. -/
theorem spanUntil_append {stop : Char → Bool} :
    ∀ {xs : List Char}, (∀ ch ∈ xs, stop ch = false) →
    ∀ {y : Char} (ys : List Char), stop y = true →
      spanUntil stop (xs ++ y :: ys) = (xs, y :: ys) := by
  intro xs
  induction xs with
  | nil => intro _ y ys hy; simp [spanUntil, hy]
  | cons c cs IH =>
    intro hall y ys hy
    have hc : stop c = false := hall c (List.mem_cons_self c cs)
    simp [spanUntil, hc, IH (fun ch hh => hall ch (List.mem_cons_of_mem c hh)) ys hy]

/-- The first component of `spanUntil` contains no stopping character. -/
theorem spanUntil_fst_false {stop : Char → Bool} :
    ∀ {l : List Char}, ∀ ch ∈ (spanUntil stop l).1, stop ch = false := by
  intro l
  induction l with
  | nil => simp [spanUntil]
  | cons c cs IH =>
    by_cases hc : stop c = true
    · simp [spanUntil, hc]
    · have hc2 : stop c = false := by
        cases hst : stop c
        · rfl
        · exact absurd hst hc
      simp only [spanUntil, hc2, Bool.false_eq_true, if_neg (Bool.false_ne_true)]
      intro ch hch
      rcases List.mem_cons.mp hch with rfl | hh
      · exact hc2
      · exact IH ch hh

/-- The second component of `spanUntil` is empty or starts with a
stopping character. -/
theorem spanUntil_snd_shape {stop : Char → Bool} :
    ∀ {l : List Char}, (spanUntil stop l).2 = [] ∨
      ∃ y ys, (spanUntil stop l).2 = y :: ys ∧ stop y = true := by
  intro l
  induction l with
  | nil => simp [spanUntil]
  | cons c cs IH =>
    by_cases hc : stop c = true
    · exact Or.inr ⟨c, cs, by simp [spanUntil, hc], hc⟩
    · have hc2 : stop c = false := by
        cases hst : stop c
        · rfl
        · exact absurd hst hc
      simpa only [spanUntil, hc2, Bool.false_eq_true, if_neg (Bool.false_ne_true)]
        using IH

/-- A parsed netloc never contains `/`, `?` or `#`. -/
theorem urlsplitL_netloc_ok (l d : List Char) :
    ∀ ch ∈ (urlsplitL l d).netloc, isNetlocStop ch = false := by
  simp only [urlsplitL]
  by_cases ht : (extractScheme l).2.take 2 = ['/', '/']
  · rw [if_pos ht]
    exact fun ch hch => spanUntil_fst_false ch hch
  · rw [if_neg ht]
    intro ch hch
    simp at hch

/-- A parsed path never contains `?` or `#`. -/
theorem urlsplitL_path_ok (l d : List Char) :
    '?' ∉ (urlsplitL l d).path ∧ '#' ∉ (urlsplitL l d).path := by
  simp only [urlsplitL]
  constructor
  · exact splitFirst_fst_not_mem
  · intro hmem
    exact splitFirst_fst_not_mem (splitFirst_fst_subset hmem)

/-- When a netloc was recognised, the parsed path is empty or starts
with a slash. -/
theorem urlsplitL_path_shape (l d : List Char)
    (hn : (urlsplitL l d).netloc ≠ []) :
    (urlsplitL l d).path = [] ∨ (urlsplitL l d).path.take 1 = ['/'] := by
  by_cases ht : (extractScheme l).2.take 2 = ['/', '/']
  · have hsplit : urlsplitL l d =
        { scheme := if (extractScheme l).1 = [] then d else (extractScheme l).1,
          netloc := (spanUntil isNetlocStop ((extractScheme l).2.drop 2)).1,
          path := (splitFirst '?'
            (splitFirst '#' (spanUntil isNetlocStop ((extractScheme l).2.drop 2)).2).1).1,
          query := ((splitFirst '?'
            (splitFirst '#' (spanUntil isNetlocStop ((extractScheme l).2.drop 2)).2).1).2).getD [],
          fragment := ((splitFirst '#'
            (spanUntil isNetlocStop ((extractScheme l).2.drop 2)).2).2).getD [] } := by
      simp only [urlsplitL]
      rw [if_pos ht]
    rw [hsplit]
    rcases @spanUntil_snd_shape isNetlocStop
        ((extractScheme l).2.drop 2) with hemp | ⟨y, ys, hyys, hy⟩
    · left
      rw [hemp]
      simp [splitFirst]
    · rw [hyys]
      have hy3 : y = '/' ∨ y = '?' ∨ y = '#' := by
        simp only [isNetlocStop, Bool.or_eq_true, decide_eq_true_eq] at hy
        tauto
      rcases hy3 with rfl | rfl | rfl
      · right
        rw [splitFirst_fst_cons (by decide), splitFirst_fst_cons (by decide)]
        rfl
      · left
        rw [splitFirst_fst_cons (by decide)]
        simp [splitFirst]
      · left
        simp [splitFirst]
  · exfalso
    apply hn
    simp only [urlsplitL]
    rw [if_neg ht]

/-- Scheme extraction on a reassembled `http` URL. -/
theorem extractScheme_http (rest : List Char) :
    extractScheme ("http".data ++ ':' :: rest) = ("http".data, rest) := by
  have h := @splitFirst_append ':' "http".data (by decide) rest
  simp only [extractScheme]
  rw [h]
  rfl

/-- Scheme extraction on a reassembled `https` URL. -/
theorem extractScheme_https (rest : List Char) :
    extractScheme ("https".data ++ ':' :: rest) = ("https".data, rest) := by
  have h := @splitFirst_append ':' "https".data (by decide) rest
  simp only [extractScheme]
  rw [h]
  rfl

/-- Re-parsing a URL assembled as `scheme://netloc/path` (the exact
shape `_normalize_url` builds) recovers the components. -/
theorem urlsplitL_reassembled (scheme netloc path : List Char)
    (hs : scheme = "http".data ∨ scheme = "https".data)
    (hn : ∀ ch ∈ netloc, isNetlocStop ch = false)
    (hp : path = [] ∨ path.take 1 = ['/'])
    (hq : '?' ∉ path) (hf : '#' ∉ path) :
    urlsplitL (scheme ++ ':' :: '/' :: '/' :: netloc ++ path) [] =
      { scheme := scheme, netloc := netloc, path := path,
        query := ([] : List Char), fragment := ([] : List Char) } := by
  have hes : extractScheme (scheme ++ ':' :: '/' :: '/' :: netloc ++ path) =
      (scheme, '/' :: '/' :: netloc ++ path) := by
    rcases hs with rfl | rfl
    · exact extractScheme_http _
    · exact extractScheme_https _
  have hspan : spanUntil isNetlocStop (netloc ++ path) = (netloc, path) := by
    rcases hp with rfl | hp1
    · rw [List.append_nil]
      exact spanUntil_all_false hn
    · rcases path with _ | ⟨p0, ps⟩
      · simp at hp1
      · simp only [List.take_succ_cons, List.take_zero] at hp1
        have hp0 : p0 = '/' := by
          injection hp1 with h1 h2
        subst hp0
        exact spanUntil_append hn ps (by decide)
  have hne : scheme ≠ [] := by
    rcases hs with rfl | rfl <;> decide
  simp only [urlsplitL]
  rw [hes]
  rw [if_neg hne]
  have htake : ('/' :: '/' :: netloc ++ path).take 2 = ['/', '/'] := rfl
  rw [if_pos htake]
  have hdrop : ('/' :: '/' :: netloc ++ path).drop 2 = netloc ++ path := rfl
  rw [hdrop, hspan]
  rw [splitFirst_of_not_mem hf, splitFirst_of_not_mem hq]
  rfl

/-- Parsing the string `_normalize_url` assembles (with or without the
trailing-slash strip) recovers the scheme and the netloc. -/
theorem normalized_parse (p : Parsed) (u : String)
    (h1 : p.scheme = "http".data ∨ p.scheme = "https".data)
    (hn : ∀ ch ∈ p.netloc, isNetlocStop ch = false)
    (hsh : p.path = [] ∨ p.path.take 1 = ['/'])
    (hq : '?' ∉ p.path) (hf : '#' ∉ p.path)
    (hu : u.data =
      if (p.scheme ++ ':' :: '/' :: '/' :: p.netloc ++ p.path).getLast? = some '/' ∧
          p.path.length > 1 then
        (p.scheme ++ ':' :: '/' :: '/' :: p.netloc ++ p.path).dropLast
      else p.scheme ++ ':' :: '/' :: '/' :: p.netloc ++ p.path) :
    (urlsplitL u.data []).scheme = p.scheme ∧
      (urlsplitL u.data []).netloc = p.netloc := by
  by_cases hstr : (p.scheme ++ ':' :: '/' :: '/' :: p.netloc ++ p.path).getLast? = some '/' ∧
      p.path.length > 1
  · rw [if_pos hstr] at hu
    obtain ⟨p0, p1, ps, hpp⟩ : ∃ p0 p1 ps, p.path = p0 :: p1 :: ps := by
      rcases hpath : p.path with _ | ⟨p0, _ | ⟨p1, ps⟩⟩
      · rw [hpath] at hstr; simp at hstr
      · rw [hpath] at hstr; simp at hstr
      · exact ⟨_, _, _, rfl⟩
    have hassoc : p.scheme ++ ':' :: '/' :: '/' :: p.netloc ++ p.path =
        (p.scheme ++ ':' :: '/' :: '/' :: p.netloc) ++ p.path := by
      simp [List.append_assoc]
    rw [hassoc, List.dropLast_append_of_ne_nil _ (by rw [hpp]; simp)] at hu
    have hps : p0 = '/' := by
      rcases hsh with hemp | htk
      · rw [hpp] at hemp; simp at hemp
      · rw [hpp] at htk
        simpa using htk
    have htail : p.path.dropLast = '/' :: (p1 :: ps).dropLast := by
      rw [hpp, hps]
      rfl
    have hfix : u.data = p.scheme ++ ':' :: '/' :: '/' :: p.netloc ++ p.path.dropLast := by
      rw [hu, htail]
    rw [hfix,
      urlsplitL_reassembled p.scheme p.netloc p.path.dropLast h1 hn
        (Or.inr (by rw [htail]; rfl))
        (fun hmem => hq ((List.dropLast_sublist _).subset hmem))
        (fun hmem => hf ((List.dropLast_sublist _).subset hmem))]
    exact ⟨rfl, rfl⟩
  · rw [if_neg hstr] at hu
    rw [hu, urlsplitL_reassembled p.scheme p.netloc p.path h1 hn hsh hq hf]
    exact ⟨rfl, rfl⟩

/-- Whenever `_normalize_url` returns a URL, parsing that URL again
yields an http/https scheme and exactly the crawler's `base_domain` as
host (provided the base domain is nonempty). -/
theorem normalizeUrl_some_parse (bd url base u : String)
    (hbd : bd.data ≠ [])
    (hsome : normalizeUrl bd url base = some u) :
    ((urlsplitL u.data []).scheme = "http".data ∨
      (urlsplitL u.data []).scheme = "https".data) ∧
    (urlsplitL u.data []).netloc = bd.data := by
  simp only [normalizeUrl] at hsome
  by_cases h1 : (urlsplitL (urljoinL base.data url.data) []).scheme = "http".data ∨
      (urlsplitL (urljoinL base.data url.data) []).scheme = "https".data
  · rw [if_neg (not_not_intro h1)] at hsome
    by_cases h2 : (urlsplitL (urljoinL base.data url.data) []).netloc = bd.data
    · rw [if_neg (not_not_intro h2)] at hsome
      have hud := congrArg String.data (Option.some.inj hsome)
      have hshape := urlsplitL_path_shape (urljoinL base.data url.data) []
        (by rw [h2]; exact hbd)
      have hok := urlsplitL_path_ok (urljoinL base.data url.data) []
      have hres := normalized_parse (urlsplitL (urljoinL base.data url.data) []) u
        h1 (urlsplitL_netloc_ok _ _) hshape hok.1 hok.2 hud.symm
      rw [hres.1, hres.2]
      exact ⟨h1, h2⟩
    · rw [if_pos h2] at hsome
      simp at hsome
  · rw [if_pos h1] at hsome
    simp at hsome

/-- A URL returned by `_normalize_url` is never the empty string (it
always starts with its scheme). -/
theorem normalizeUrl_some_ne_empty (bd url base u : String)
    (hsome : normalizeUrl bd url base = some u) : u ≠ "" := by
  simp only [normalizeUrl] at hsome
  by_cases h1 : (urlsplitL (urljoinL base.data url.data) []).scheme = "http".data ∨
      (urlsplitL (urljoinL base.data url.data) []).scheme = "https".data
  swap
  · rw [if_pos h1] at hsome
    simp at hsome
  rw [if_neg (not_not_intro h1)] at hsome
  by_cases h2 : (urlsplitL (urljoinL base.data url.data) []).netloc = bd.data
  swap
  · rw [if_pos h2] at hsome
    simp at hsome
  rw [if_neg (not_not_intro h2)] at hsome
  have hud := congrArg String.data (Option.some.inj hsome)
  intro hemp
  subst hemp
  have hnil : ("" : String).data = [] := rfl
  rw [hnil] at hud
  dsimp only at hud
  have hs45 : (urlsplitL (urljoinL base.data url.data) []).scheme.length = 4 ∨
      (urlsplitL (urljoinL base.data url.data) []).scheme.length = 5 := by
    rcases h1 with hh | hh
    · left
      rw [hh]
      rfl
    · right
      rw [hh]
      rfl
  split at hud
  · have hlen := congrArg List.length hud
    simp only [List.length_dropLast, List.length_append, List.length_cons,
      List.length_nil] at hlen
    omega
  · have hlen := congrArg List.length hud
    simp only [List.length_append, List.length_cons, List.length_nil] at hlen
    omega

/-- The URLs announced by `node_discovered` events, in order. -/
def nodeDiscoveredUrls (evs : List Event) : List String :=
  evs.filterMap (fun e =>
    match e with
    | Event.node_discovered _ u _ => some u
    | _ => none)

/-- Shape of the event stream produced by the scan loop when `n` nodes
already exist: per processed page one `node_discovered` carrying the
next sequential id `node_n`, then at most one `link_discovered`
targeting that id, then exactly one `diagnosis_update` with the same id
and url; the stream may end with a single `limit_reached`. -/
inductive Blocks : Nat → List Event → Prop where
  | nil (n : Nat) : Blocks n []
  | limit (n : Nat) (msg : String) : Blocks n [Event.limit_reached msg]
  | block (n : Nat) (url : String) (depth status_code latency : Nat)
      (status : Status) (evs : List Event) :
      Blocks (n + 1) evs →
      Blocks n (Event.node_discovered (nodeIdStr n) url depth ::
        Event.diagnosis_update (nodeIdStr n) url status_code latency status :: evs)
  | blockLink (n : Nat) (url : String) (depth status_code latency : Nat)
      (status : Status) (src : String) (evs : List Event) :
      Blocks (n + 1) evs →
      Blocks n (Event.node_discovered (nodeIdStr n) url depth ::
        Event.link_discovered src (nodeIdStr n) ::
        Event.diagnosis_update (nodeIdStr n) url status_code latency status :: evs)

/-- A URL produced by the crawler's normaliser (against some href and
some base). -/
def InNormalizeImage (c : SiteCrawler) (u : String) : Prop :=
  ∃ href base, normalizeUrl c.base_domain href base = some u

/-- Invariant on the crawler state maintained by every iteration of the
scan loop. -/
structure StateInv (c : SiteCrawler) (s : ScanState) : Prop where
  pages_le : s.stats.total_pages ≤ c.max_pages
  len_eq : s.nodes.length = s.stats.total_pages
  depth_le : ∀ n ∈ s.nodes, n.depth ≤ c.max_depth
  node_src : ∀ n ∈ s.nodes, n.url = c.start_url ∨ InNormalizeImage c n.url
  inbound : c.start_url ≠ "" → ∀ n ∈ s.nodes, n.url ≠ c.start_url →
    ∃ e ∈ s.links, e.target = n.id

/-- Invariant on the pending queue: depths are bounded, every queued
URL is the start URL or a normaliser output, parentless entries carry
the start URL, and every named parent is an already recorded node. -/
def QueueInv (c : SiteCrawler) (queue : List QItem) (s : ScanState) : Prop :=
  ∀ q ∈ queue,
    q.2.1 ≤ c.max_depth ∧
    (q.1 = c.start_url ∨ InNormalizeImage c q.1) ∧
    (q.2.2 = none → q.1 = c.start_url) ∧
    (∀ p, q.2.2 = some p → ∃ n ∈ s.nodes, n.url = p)

/-- Node URLs are nonempty whenever the start URL is. -/
theorem node_url_ne_empty {c : SiteCrawler} {s : ScanState}
    (hinv : StateInv c s) (hstart : c.start_url ≠ "") :
    ∀ n ∈ s.nodes, n.url ≠ "" := by
  intro n hn
  rcases hinv.node_src n hn with heq | ⟨href, b, himg⟩
  · rw [heq]; exact hstart
  · exact normalizeUrl_some_ne_empty _ _ _ _ himg

/-- Assembling one loop iteration's event block preserves the
freshness, uniqueness and shape facts about the stream. -/
theorem events_cons (n : Nat) (curl : String) (dep sc lat : Nat) (st : Status)
    (linkEvs recEvs : List Event) (v : List String)
    (hlink : linkEvs = [] ∨ ∃ src, linkEvs = [Event.link_discovered src (nodeIdStr n)])
    (hnd : (nodeDiscoveredUrls recEvs).Nodup)
    (hfresh : ∀ u ∈ nodeDiscoveredUrls recEvs, u ∉ curl :: v)
    (hcurl : curl ∉ v)
    (hblocks : Blocks (n + 1) recEvs) :
    (nodeDiscoveredUrls (Event.node_discovered (nodeIdStr n) curl dep ::
        (linkEvs ++ Event.diagnosis_update (nodeIdStr n) curl sc lat st :: recEvs))).Nodup ∧
    (∀ u ∈ nodeDiscoveredUrls (Event.node_discovered (nodeIdStr n) curl dep ::
        (linkEvs ++ Event.diagnosis_update (nodeIdStr n) curl sc lat st :: recEvs)),
      u ∉ v) ∧
    Blocks n (Event.node_discovered (nodeIdStr n) curl dep ::
        (linkEvs ++ Event.diagnosis_update (nodeIdStr n) curl sc lat st :: recEvs)) := by
  have hrec : ∀ u ∈ nodeDiscoveredUrls recEvs, u ≠ curl ∧ u ∉ v := by
    intro u hu
    have := hfresh u hu
    rw [List.mem_cons] at this
    push_neg at this
    exact this
  rcases hlink with rfl | ⟨src, rfl⟩
  · have hurls : nodeDiscoveredUrls (Event.node_discovered (nodeIdStr n) curl dep ::
        ([] ++ Event.diagnosis_update (nodeIdStr n) curl sc lat st :: recEvs)) =
        curl :: nodeDiscoveredUrls recEvs := by
      simp [nodeDiscoveredUrls]
    rw [hurls]
    refine ⟨List.nodup_cons.mpr ⟨fun hmem => ((hrec curl hmem).1 rfl), hnd⟩, ?_, ?_⟩
    · intro u hu
      rcases List.mem_cons.mp hu with rfl | hu2
      · exact hcurl
      · exact (hrec u hu2).2
    · exact Blocks.block n curl dep sc lat st recEvs hblocks
  · have hurls : nodeDiscoveredUrls (Event.node_discovered (nodeIdStr n) curl dep ::
        ([Event.link_discovered src (nodeIdStr n)] ++
          Event.diagnosis_update (nodeIdStr n) curl sc lat st :: recEvs)) =
        curl :: nodeDiscoveredUrls recEvs := by
      simp [nodeDiscoveredUrls]
    rw [hurls]
    refine ⟨List.nodup_cons.mpr ⟨fun hmem => ((hrec curl hmem).1 rfl), hnd⟩, ?_, ?_⟩
    · intro u hu
      rcases List.mem_cons.mp hu with rfl | hu2
      · exact hcurl
      · exact (hrec u hu2).2
    · exact Blocks.blockLink n curl dep sc lat st src recEvs hblocks


/-- `linkStep` on a missing parent. -/
theorem linkStep_none (nodes : List NodeRec) (nid : String) :
    linkStep none nodes nid = ([], []) := rfl

/-- `linkStep` on an empty (falsy) parent URL. -/
theorem linkStep_some_empty {p : String} (hp : p = "") (nodes : List NodeRec)
    (nid : String) : linkStep (some p) nodes nid = ([], []) := by
  simp only [linkStep]
  rw [if_neg (not_not_intro hp)]

/-- `linkStep` when the parent is not a recorded node key. -/
theorem linkStep_some_notfound {p : String} (hp : p ≠ "") {nodes : List NodeRec}
    (hfind : nodes.find? (fun n => n.url = p) = none) (nid : String) :
    linkStep (some p) nodes nid = ([], []) := by
  simp only [linkStep]
  rw [if_pos hp, hfind]

/-- `linkStep` when the parent is a recorded node. -/
theorem linkStep_some_found {p : String} (hp : p ≠ "") {nodes : List NodeRec}
    {pn : NodeRec} (hfind : nodes.find? (fun n => n.url = p) = some pn)
    (nid : String) :
    linkStep (some p) nodes nid =
      ([Event.link_discovered pn.id nid], [{ source := pn.id, target := nid }]) := by
  simp only [linkStep]
  rw [if_pos hp, hfind]

/-- The first component of `linkStep` is empty or a single
`link_discovered` event targeting the new node id. -/
theorem linkStep_fst_shape (parent_url : Option String) (nodes : List NodeRec)
    (nid : String) :
    (linkStep parent_url nodes nid).1 = [] ∨
      ∃ src, (linkStep parent_url nodes nid).1 = [Event.link_discovered src nid] := by
  cases parent_url with
  | none => exact Or.inl rfl
  | some p =>
    by_cases hp : p = ""
    · rw [linkStep_some_empty hp]
      exact Or.inl rfl
    · cases hfind : nodes.find? (fun n => n.url = p) with
      | none =>
        rw [linkStep_some_notfound hp hfind]
        exact Or.inl rfl
      | some pn =>
        rw [linkStep_some_found hp hfind]
        exact Or.inr ⟨pn.id, rfl⟩

/-- `updateStats` always bumps the page counter by one. -/
theorem updateStats_total (stats : Stats) (st : Status) :
    (updateStats stats st).total_pages = stats.total_pages + 1 := by
  cases st <;> rfl

/-- Event-stream facts about the scan loop from any starting state: the
`node_discovered` URLs are distinct and all fresh with respect to the
current visited set, and the stream has the block shape `Blocks`. -/
theorem scanLoop_events (c : SiteCrawler) (rules : Option (String → Bool))
    (world : Nat → Nat → AttemptOutcome) (jw : Nat → Nat → ℚ) :
    ∀ fuel queue s,
      (nodeDiscoveredUrls (scanLoop c rules world jw fuel queue s).1).Nodup ∧
      (∀ u ∈ nodeDiscoveredUrls (scanLoop c rules world jw fuel queue s).1,
        u ∉ s.visited) ∧
      Blocks s.nodes.length (scanLoop c rules world jw fuel queue s).1 := by
  intro fuel
  induction fuel with
  | zero =>
    intro queue s
    have heq : scanLoop c rules world jw 0 queue s = ([], s, queue.isEmpty) := rfl
    rw [heq]
    exact ⟨by simp [nodeDiscoveredUrls], by simp [nodeDiscoveredUrls], Blocks.nil _⟩
  | succ fuel IH =>
    intro queue s
    cases queue with
    | nil =>
      have heq : scanLoop c rules world jw (fuel + 1) [] s = ([], s, true) := rfl
      rw [heq]
      exact ⟨by simp [nodeDiscoveredUrls], by simp [nodeDiscoveredUrls], Blocks.nil _⟩
    | cons item rest =>
      obtain ⟨curl, dep, parent⟩ := item
      by_cases hlim : s.stats.total_pages ≥ c.max_pages
      · have heq : scanLoop c rules world jw (fuel + 1) ((curl, dep, parent) :: rest) s =
            ([Event.limit_reached (limitMessage c)], s, true) := by
          simp only [scanLoop]
          rw [if_pos hlim]
        rw [heq]
        exact ⟨by simp [nodeDiscoveredUrls], by simp [nodeDiscoveredUrls],
          Blocks.limit _ _⟩
      · by_cases hvis : curl ∈ s.visited
        · have heq : scanLoop c rules world jw (fuel + 1) ((curl, dep, parent) :: rest) s =
              scanLoop c rules world jw fuel rest s := by
            simp only [scanLoop]
            rw [if_neg hlim]
            dsimp only
            rw [if_pos hvis]
          rw [heq]
          exact IH rest s
        · by_cases hcf : canFetchB c rules curl = true
          · simp only [scanLoop]
            rw [if_neg hlim]
            dsimp only
            rw [if_neg hvis, if_neg (not_not_intro hcf)]
            dsimp only
            rcases linkStep_fst_shape parent s.nodes (nodeIdStr s.nodes.length) with
              hsh | ⟨src, hsh⟩
            · rw [hsh]
              obtain ⟨h1, h2, h3⟩ := IH _ _
              exact events_cons s.nodes.length curl dep _ _ _ [] _ s.visited
                (Or.inl rfl) h1 h2 hvis (by simpa using h3)
            · rw [hsh]
              obtain ⟨h1, h2, h3⟩ := IH _ _
              exact events_cons s.nodes.length curl dep _ _ _
                [Event.link_discovered src (nodeIdStr s.nodes.length)] _ s.visited
                (Or.inr ⟨src, rfl⟩) h1 h2 hvis (by simpa using h3)
          · have heq : scanLoop c rules world jw (fuel + 1) ((curl, dep, parent) :: rest) s =
                scanLoop c rules world jw fuel rest s := by
              simp only [scanLoop]
              rw [if_neg hlim]
              dsimp only
              rw [if_neg hvis, if_pos hcf]
            rw [heq]
            exact IH rest s

/-- The scan loop preserves the state invariant, for any fuel, queue
and oracles, provided the queue invariant holds. -/
theorem scanLoop_stateInv (c : SiteCrawler) (rules : Option (String → Bool))
    (world : Nat → Nat → AttemptOutcome) (jw : Nat → Nat → ℚ) :
    ∀ fuel queue s, StateInv c s → QueueInv c queue s →
      StateInv c (scanLoop c rules world jw fuel queue s).2.1 := by
  intro fuel
  induction fuel with
  | zero =>
    intro queue s hs _
    exact hs
  | succ fuel IH =>
    intro queue s hs hq
    cases queue with
    | nil => exact hs
    | cons item rest =>
      obtain ⟨curl, dep, parent⟩ := item
      have hqrest : QueueInv c rest s :=
        fun q hq2 => hq q (List.mem_cons_of_mem _ hq2)
      by_cases hlim : s.stats.total_pages ≥ c.max_pages
      · have heq : scanLoop c rules world jw (fuel + 1) ((curl, dep, parent) :: rest) s =
            ([Event.limit_reached (limitMessage c)], s, true) := by
          simp only [scanLoop]
          rw [if_pos hlim]
        rw [heq]
        exact hs
      · by_cases hvis : curl ∈ s.visited
        · have heq : scanLoop c rules world jw (fuel + 1) ((curl, dep, parent) :: rest) s =
              scanLoop c rules world jw fuel rest s := by
            simp only [scanLoop]
            rw [if_neg hlim]
            dsimp only
            rw [if_pos hvis]
          rw [heq]
          exact IH rest s hs hqrest
        · by_cases hcf : canFetchB c rules curl = true
          · obtain ⟨hdep, hsrc, hroot, hparent⟩ :=
              hq (curl, dep, parent) (List.mem_cons_self _ _)
            simp only [scanLoop]
            rw [if_neg hlim]
            dsimp only
            rw [if_neg hvis, if_neg (not_not_intro hcf)]
            dsimp only
            set result := fetchWithRetry c curl (world s.stats.total_pages)
              (jw s.stats.total_pages) with hresult
            set nid := nodeIdStr s.nodes.length with hnid
            set node : NodeRec :=
              { url := curl, id := nid, depth := dep, result := result } with hnode
            set s2 : ScanState :=
              { visited := curl :: s.visited,
                nodes := s.nodes ++ [node],
                links := s.links ++ (linkStep parent s.nodes nid).2,
                stats := updateStats s.stats result.status } with hs2
            have hs2inv : StateInv c s2 := by
              refine ⟨?_, ?_, ?_, ?_, ?_⟩
              · show (updateStats s.stats result.status).total_pages ≤ c.max_pages
                rw [updateStats_total]
                omega
              · show (s.nodes ++ [node]).length =
                  (updateStats s.stats result.status).total_pages
                rw [updateStats_total, List.length_append, hs.len_eq]
                rfl
              · intro n hn
                rcases List.mem_append.mp hn with hold | hnew
                · exact hs.depth_le n hold
                · rw [List.mem_singleton.mp hnew]
                  exact hdep
              · intro n hn
                rcases List.mem_append.mp hn with hold | hnew
                · exact hs.node_src n hold
                · rw [List.mem_singleton.mp hnew]
                  exact hsrc
              · intro hstart n hn hne
                rcases List.mem_append.mp hn with hold | hnew
                · obtain ⟨e, he, het⟩ := hs.inbound hstart n hold hne
                  exact ⟨e, List.mem_append_left _ he, het⟩
                · rw [List.mem_singleton.mp hnew] at hne ⊢
                  cases hpar : parent with
                  | none =>
                    exact absurd (hroot hpar) hne
                  | some p =>
                    obtain ⟨pn, hpn, hpnu⟩ := hparent p hpar
                    have hpne : p ≠ "" := by
                      rw [← hpnu]
                      exact node_url_ne_empty hs hstart pn hpn
                    have hfound : (s.nodes.find? (fun n => n.url = p)).isSome := by
                      rw [List.find?_isSome]
                      exact ⟨pn, hpn, by simp [hpnu]⟩
                    obtain ⟨pn2, hfind⟩ := Option.isSome_iff_exists.mp hfound
                    show ∃ e ∈ s.links ++ (linkStep parent s.nodes nid).2,
                      e.target = node.id
                    rw [hpar, linkStep_some_found hpne hfind]
                    exact ⟨{ source := pn2.id, target := nid },
                      List.mem_append_right _ (List.mem_singleton_self _), rfl⟩
            have hq2inv : QueueInv c
                (rest ++ (if dep < c.max_depth then
                  ((result.links.filter (fun link => link ∉ curl :: s.visited)).map
                    (fun link => (link, dep + 1, some curl))) else [])) s2 := by
              intro q hq2
              rcases List.mem_append.mp hq2 with hold | hnewq
              · obtain ⟨h1, h2, h3, h4⟩ := hqrest q hold
                refine ⟨h1, h2, h3, ?_⟩
                intro p hp
                obtain ⟨n, hn, hnu⟩ := h4 p hp
                exact ⟨n, List.mem_append_left _ hn, hnu⟩
              · by_cases hd : dep < c.max_depth
                · rw [if_pos hd] at hnewq
                  obtain ⟨link, hlink, rfl⟩ := List.mem_map.mp hnewq
                  have hlink2 := List.mem_of_mem_filter hlink
                  refine ⟨?_, ?_, ?_, ?_⟩
                  · show dep + 1 ≤ c.max_depth
                    omega
                  · show link = c.start_url ∨ InNormalizeImage c link
                    right
                    obtain ⟨href, himg⟩ :=
                      fetchWithRetry_links_image c curl (world s.stats.total_pages)
                        (jw s.stats.total_pages) link hlink2
                    exact ⟨href, curl, himg⟩
                  · show some curl = none → _
                    intro hcon
                    exact absurd hcon (Option.some_ne_none curl)
                  · show ∀ p, some curl = some p → ∃ n ∈ s2.nodes, n.url = p
                    intro p hp
                    obtain rfl : curl = p := Option.some.inj hp
                    exact ⟨node, List.mem_append_right _ (List.mem_singleton_self _), rfl⟩
                · rw [if_neg hd] at hnewq
                  cases hnewq
            exact IH _ s2 hs2inv hq2inv
          · have heq : scanLoop c rules world jw (fuel + 1) ((curl, dep, parent) :: rest) s =
                scanLoop c rules world jw fuel rest s := by
              simp only [scanLoop]
              rw [if_neg hlim]
              dsimp only
              rw [if_neg hvis, if_pos hcf]
            rw [heq]
            exact IH rest s hs hqrest

/-- A filter over a list whose elements all fail the predicate is empty. -/
theorem filter_nil_of_all {α : Type} (p : α → Bool) :
    ∀ l : List α, (∀ a ∈ l, p a = false) → l.filter p = [] := by
  intro l
  induction l with
  | nil => intro _; rfl
  | cons x xs IH =>
    intro hall
    rw [List.filter_cons, hall x (List.mem_cons_self x xs),
      IH (fun a ha => hall a (List.mem_cons_of_mem x ha))]
    rfl

/-- On a crawl state satisfying the invariant with a nonempty start
URL, `generate_report` finds no orphans and therefore leaves the state
(in particular every statistics counter) unchanged. -/
theorem generateReport_stable (c : SiteCrawler) (s : ScanState)
    (hs : StateInv c s) (hstart : c.start_url ≠ "") :
    (generateReport c s).2 = s := by
  have hfilter : s.nodes.filter
      (fun n => decide (n.url ≠ c.start_url ∧
        (s.links.filter (fun link => link.target = n.id)).length = 0)) = [] := by
    apply filter_nil_of_all
    intro n hn
    rw [decide_eq_false_iff_not]
    rintro ⟨hne, hzero⟩
    obtain ⟨e, he, het⟩ := hs.inbound hstart n hn hne
    have hmem : e ∈ s.links.filter (fun link => link.target = n.id) :=
      List.mem_filter.mpr ⟨he, by simp [het]⟩
    have hpos := List.length_pos.mpr (List.ne_nil_of_mem hmem)
    omega
  simp only [generateReport, hfilter]
  obtain ⟨v, nd, lk, st⟩ := s
  obtain ⟨a, b, d, e⟩ := st
  rfl

/-- A fetch world where every request succeeds instantly with no links. -/
def okWorld : Nat → Nat → AttemptOutcome :=
  fun _ _ => AttemptOutcome.ok (HttpOutcome.response 200 0 [])

/-- A fetch world where the start page links to `/a` and every other
page has no links. -/
def linkWorld : Nat → Nat → AttemptOutcome :=
  fun i _ =>
    if i = 0 then AttemptOutcome.ok (HttpOutcome.response 200 0 ["/a"])
    else AttemptOutcome.ok (HttpOutcome.response 200 0 [])

/-- The zero jitter oracle. -/
def zeroJitter : Nat → ℚ := fun _ => 0

/-- The zero jitter oracle for whole crawls. -/
def zeroJW : Nat → Nat → ℚ := fun _ _ => 0

/-- The state invariant holds at the start of a crawl. -/
theorem initState_inv (c : SiteCrawler) : StateInv c initState := by
  refine ⟨Nat.zero_le _, rfl, ?_, ?_, ?_⟩
  · intro n hn
    cases hn
  · intro n hn
    cases hn
  · intro _ n hn
    cases hn

/-- The queue invariant holds for the seeded queue. -/
theorem initQueue_inv (c : SiteCrawler) :
    QueueInv c [(c.start_url, 0, none)] initState := by
  intro q hq
  rcases List.mem_singleton.mp hq with rfl
  exact ⟨Nat.zero_le _, Or.inl rfl, fun _ => rfl, fun p hp => by cases hp⟩

/-- C1: for every crawl that terminates normally via `SiteCrawler.scan`
(the returned flag is `true`: queue exhausted or page cap reached), the
number of fetched pages `stats.total_pages` equals the number of
recorded nodes and is at most `max_pages`, and every recorded node's
depth is at most `max_depth`. -/
theorem claim_C1 (c : SiteCrawler) (rules : Option (String → Bool))
    (world : Nat → Nat → AttemptOutcome) (jw : Nat → Nat → ℚ) (fuel : Nat)
    (hterm : (scan c rules world jw fuel).2.2 = true) :
    (scan c rules world jw fuel).2.1.stats.total_pages ≤ c.max_pages ∧
    (scan c rules world jw fuel).2.1.nodes.length =
      (scan c rules world jw fuel).2.1.stats.total_pages ∧
    ∀ n ∈ (scan c rules world jw fuel).2.1.nodes, n.depth ≤ c.max_depth := by
  have h := scanLoop_stateInv c rules world jw fuel [(c.start_url, 0, none)]
    initState (initState_inv c) (initQueue_inv c)
  exact ⟨h.pages_le, h.len_eq, h.depth_le⟩

/-- Witness for C1 on a concrete one-page crawl. -/
theorem claim_C1_witness :
    (scan (defaultCrawler "https://example.com") none okWorld zeroJW 5).2.2 = true ∧
    ((scan (defaultCrawler "https://example.com") none okWorld zeroJW
        5).2.1.stats.total_pages ≤ (defaultCrawler "https://example.com").max_pages ∧
      (scan (defaultCrawler "https://example.com") none okWorld zeroJW
        5).2.1.nodes.length =
        (scan (defaultCrawler "https://example.com") none okWorld zeroJW
          5).2.1.stats.total_pages ∧
      ∀ n ∈ (scan (defaultCrawler "https://example.com") none okWorld zeroJW 5).2.1.nodes,
        n.depth ≤ (defaultCrawler "https://example.com").max_depth) :=
  ⟨by decide,
   claim_C1 (defaultCrawler "https://example.com") none okWorld zeroJW 5 (by decide)⟩

/-- C2: no canonical URL appears in more than one `node_discovered`
event of a single crawl (the visited set gates both enqueue and
dequeue, and a URL is marked visited before its event is emitted). -/
theorem claim_C2 (c : SiteCrawler) (rules : Option (String → Bool))
    (world : Nat → Nat → AttemptOutcome) (jw : Nat → Nat → ℚ) (fuel : Nat) :
    (nodeDiscoveredUrls (scan c rules world jw fuel).1).Nodup :=
  (scanLoop_events c rules world jw fuel [(c.start_url, 0, none)] initState).1

/-- C3: classification of a single page fetch — status ≥ 400 is
Necrosis; otherwise latency above the configured threshold is Blockage;
otherwise Healthy; and a transport-level timeout is recorded as a 408
Necrosis result. -/
theorem claim_C3 (c : SiteCrawler) (url : String) :
    (∀ sc lat hrefs, sc ≥ 400 →
      (fetchPage c url (HttpOutcome.response sc lat hrefs)).status =
        Status.necrosis) ∧
    (∀ sc lat hrefs, sc < 400 → lat > c.latency_threshold →
      (fetchPage c url (HttpOutcome.response sc lat hrefs)).status =
        Status.blockage) ∧
    (∀ sc lat hrefs, sc < 400 → lat ≤ c.latency_threshold →
      (fetchPage c url (HttpOutcome.response sc lat hrefs)).status =
        Status.healthy) ∧
    (∀ lat, fetchPage c url (HttpOutcome.timeout lat) =
      { url := url, status_code := 408, latency := lat,
        status := Status.necrosis, links := [], error := none }) := by
  refine ⟨?_, ?_, ?_, fun lat => rfl⟩
  · intro sc lat hrefs hsc
    simp only [fetchPage]
    rw [if_pos hsc]
  · intro sc lat hrefs h1 h2
    simp only [fetchPage]
    rw [if_neg (by omega), if_pos h2]
  · intro sc lat hrefs h1 h2
    simp only [fetchPage]
    rw [if_neg (by omega), if_neg (by omega)]

/-- Witness for C3 at concrete status codes and latencies. -/
theorem claim_C3_witness :
    (fetchPage (defaultCrawler "https://example.com") "https://example.com/x"
      (HttpOutcome.response 404 5 [])).status = Status.necrosis ∧
    (fetchPage (defaultCrawler "https://example.com") "https://example.com/x"
      (HttpOutcome.response 200 9999 [])).status = Status.blockage ∧
    (fetchPage (defaultCrawler "https://example.com") "https://example.com/x"
      (HttpOutcome.response 200 100 [])).status = Status.healthy ∧
    fetchPage (defaultCrawler "https://example.com") "https://example.com/x"
      (HttpOutcome.timeout 42) =
      { url := "https://example.com/x", status_code := 408, latency := 42,
        status := Status.necrosis, links := [], error := none } :=
  ⟨(claim_C3 (defaultCrawler "https://example.com") "https://example.com/x").1
      404 5 [] (by decide),
   (claim_C3 (defaultCrawler "https://example.com") "https://example.com/x").2.1
      200 9999 [] (by decide) (by decide),
   (claim_C3 (defaultCrawler "https://example.com") "https://example.com/x").2.2.1
      200 100 [] (by decide) (by decide),
   (claim_C3 (defaultCrawler "https://example.com") "https://example.com/x").2.2.2 42⟩

/-- C10: the event stream of the sequential scan loop is a sequence of
contiguous per-page blocks with fresh sequential ids (`node_0`,
`node_1`, ...): each `node_discovered` is followed, before any later
`node_discovered`, by at most one `link_discovered` targeting its id
and then exactly one `diagnosis_update` carrying the same id and url; a
`diagnosis_update` never appears for an unannounced id, and only a
final `limit_reached` may close the stream. -/
theorem claim_C10 (c : SiteCrawler) (rules : Option (String → Bool))
    (world : Nat → Nat → AttemptOutcome) (jw : Nat → Nat → ℚ) (fuel : Nat) :
    Blocks 0 (scan c rules world jw fuel).1 :=
  (scanLoop_events c rules world jw fuel [(c.start_url, 0, none)] initState).2.2

/-- C4 counterexample: an attempt whose HTTP request raises a transport
exception is caught inside `_fetch_page` (src/crawler.py:235) and
surfaced as a non-retryable status-0 result, so with a full retry
budget of 3 attempts the call consumes exactly one attempt and performs
no back-off sleep — refuting "an attempt is followed by a retry if and
only if it produced a 5xx-class response or a transport exception and
the budget is not exhausted". -/
theorem claim_C4_counterexample :
    (defaultCrawler "https://example.com").max_retries = 3 ∧
    retryableOutcome (defaultCrawler "https://example.com")
      "https://example.com/page"
      (AttemptOutcome.ok (HttpOutcome.failure "Cannot connect to host")) = false ∧
    fetchWithRetryTrace (defaultCrawler "https://example.com")
        "https://example.com/page"
        (fun _ => AttemptOutcome.ok (HttpOutcome.failure "Cannot connect to host"))
        zeroJitter =
      ({ url := "https://example.com/page", status_code := 0, latency := 0,
         status := Status.necrosis, links := [],
         error := some "Cannot connect to host" }, 1, []) := by
  refine ⟨by decide, by decide, by decide⟩

/-- C4 (amended): within `_fetch_with_retry`, an attempt is followed by
a retry iff it returned a 500/502/503/504 result or raised an exception
past `_fetch_page`'s handlers, and the budget (`max_retries` attempts
total) is not exhausted; transport errors and timeouts caught by
`_fetch_page` (status 0 / 408) and all 4xx or successful responses are
never retried; the waits are exactly `2 ^ attempt + jitter` seconds
with jitter drawn from `[0, 2 ^ attempt)`, attempt 0-indexed. -/
theorem claim_C4 (c : SiteCrawler) (url : String)
    (outcomes : Nat → AttemptOutcome) (jitter : Nat → ℚ)
    (hj : ∀ a, 0 ≤ jitter a ∧ jitter a < 2 ^ a) :
    (∀ a, a + 1 < (fetchWithRetryTrace c url outcomes jitter).2.1 ↔
      (a < (fetchWithRetryTrace c url outcomes jitter).2.1 ∧
       retryableOutcome c url (outcomes a) = true ∧ a + 1 < c.max_retries)) ∧
    (∀ msg, retryableOutcome c url
      (AttemptOutcome.ok (HttpOutcome.failure msg)) = false) ∧
    (∀ lat, retryableOutcome c url
      (AttemptOutcome.ok (HttpOutcome.timeout lat)) = false) ∧
    (∀ sc lat hrefs, retryableOutcome c url
      (AttemptOutcome.ok (HttpOutcome.response sc lat hrefs)) = true ↔
        sc ∈ retryCodes) ∧
    (∀ msg, retryableOutcome c url (AttemptOutcome.raised msg) = true) ∧
    (fetchWithRetryTrace c url outcomes jitter).2.2 =
      (List.range' 0 ((fetchWithRetryTrace c url outcomes jitter).2.1 - 1)).map
        (fun a => (2 : ℚ) ^ a + jitter a) ∧
    (∀ a, (2 : ℚ) ^ a ≤ (2 : ℚ) ^ a + jitter a ∧
      (2 : ℚ) ^ a + jitter a < 2 ^ (a + 1)) := by
  simp only [fetchWithRetryTrace]
  obtain ⟨h1, _, _, h4, h5, h6⟩ :=
    fetchWithRetryGo_spec c url outcomes jitter c.max_retries 0 none (by omega)
  refine ⟨?_, fun msg => rfl, fun lat => rfl, ?_, fun msg => rfl, ?_, ?_⟩
  · intro a
    constructor
    · intro hlt
      exact ⟨by omega, h4 a (Nat.zero_le a) hlt, by omega⟩
    · rintro ⟨hlt, hr, hb⟩
      exact h5 a (Nat.zero_le a) hlt hr hb
  · intro sc lat hrefs
    show decide ((fetchPage c url (HttpOutcome.response sc lat hrefs)).status_code ∈
      retryCodes) = true ↔ sc ∈ retryCodes
    rw [decide_eq_true_iff]
    exact Iff.rfl
  · rw [h6, Nat.sub_zero]
  · intro a
    constructor
    · have := (hj a).1
      linarith
    · have h2 := (hj a).2
      have hpow : (2 : ℚ) ^ (a + 1) = 2 ^ a + 2 ^ a := by ring
      linarith

/-- An attempt oracle: 500 on the first attempt, 200 afterwards. -/
def fiveHundredThenOk : Nat → AttemptOutcome :=
  fun a =>
    if a = 0 then AttemptOutcome.ok (HttpOutcome.response 500 10 [])
    else AttemptOutcome.ok (HttpOutcome.response 200 10 [])

/-- Witness for C4: a 500 response on the first attempt followed by a
200 response; the call retries once after sleeping one second. -/
theorem claim_C4_witness :
    (∀ a, (0 : ℚ) ≤ zeroJitter a ∧ zeroJitter a < 2 ^ a) ∧
    ((∀ a, a + 1 < (fetchWithRetryTrace (defaultCrawler "https://example.com")
        "https://example.com/p" fiveHundredThenOk zeroJitter).2.1 ↔
      (a < (fetchWithRetryTrace (defaultCrawler "https://example.com")
        "https://example.com/p" fiveHundredThenOk zeroJitter).2.1 ∧
       retryableOutcome (defaultCrawler "https://example.com")
         "https://example.com/p" (fiveHundredThenOk a) = true ∧
       a + 1 < (defaultCrawler "https://example.com").max_retries)) ∧
    (∀ msg, retryableOutcome (defaultCrawler "https://example.com")
      "https://example.com/p"
      (AttemptOutcome.ok (HttpOutcome.failure msg)) = false) ∧
    (∀ lat, retryableOutcome (defaultCrawler "https://example.com")
      "https://example.com/p"
      (AttemptOutcome.ok (HttpOutcome.timeout lat)) = false) ∧
    (∀ sc lat hrefs, retryableOutcome (defaultCrawler "https://example.com")
      "https://example.com/p"
      (AttemptOutcome.ok (HttpOutcome.response sc lat hrefs)) = true ↔
        sc ∈ retryCodes) ∧
    (∀ msg, retryableOutcome (defaultCrawler "https://example.com")
      "https://example.com/p" (AttemptOutcome.raised msg) = true) ∧
    (fetchWithRetryTrace (defaultCrawler "https://example.com")
        "https://example.com/p" fiveHundredThenOk zeroJitter).2.2 =
      (List.range' 0 ((fetchWithRetryTrace (defaultCrawler "https://example.com")
        "https://example.com/p" fiveHundredThenOk zeroJitter).2.1 - 1)).map
        (fun a => (2 : ℚ) ^ a + zeroJitter a) ∧
    (∀ a, (2 : ℚ) ^ a ≤ (2 : ℚ) ^ a + zeroJitter a ∧
      (2 : ℚ) ^ a + zeroJitter a < 2 ^ (a + 1))) :=
  ⟨fun a => ⟨le_refl 0, pow_pos (by norm_num) a⟩,
   claim_C4 (defaultCrawler "https://example.com") "https://example.com/p"
     fiveHundredThenOk zeroJitter
     (fun a => ⟨le_refl 0, pow_pos (by norm_num) a⟩)⟩

/-- Basic facts about the retryable status codes. -/
theorem retryCodes_facts {n : Nat} (h : n ∈ retryCodes) :
    400 ≤ n ∧ n ≠ 200 ∧ n ≠ 0 := by
  simp only [retryCodes, List.mem_cons, List.not_mem_nil, or_false] at h
  rcases h with rfl | rfl | rfl | rfl <;>
    refine ⟨by norm_num, by norm_num, by norm_num⟩

/-- A `_fetch_page` result with a retryable status code is a Necrosis
result with no links and a nonzero status code. -/
theorem fetchPage_retryable_shape (c : SiteCrawler) (url : String)
    (h : HttpOutcome)
    (h5 : (fetchPage c url h).status_code ∈ retryCodes) :
    (fetchPage c url h).status = Status.necrosis ∧
    (fetchPage c url h).links = [] ∧
    (fetchPage c url h).status_code ≠ 0 := by
  obtain ⟨hge, hne200, hne0⟩ := retryCodes_facts h5
  cases h with
  | response sc lat hrefs =>
    have hsc : (fetchPage c url (HttpOutcome.response sc lat hrefs)).status_code = sc :=
      rfl
    rw [hsc] at hge hne200 hne0
    refine ⟨?_, ?_, ?_⟩
    · simp only [fetchPage]
      rw [if_pos hge]
    · simp only [fetchPage]
      rw [if_neg hne200]
    · rw [hsc]
      exact hne0
  | timeout lat =>
    have h408 : (fetchPage c url (HttpOutcome.timeout lat)).status_code = 408 := rfl
    rw [h408] at h5
    exact absurd h5 (by decide)
  | failure msg =>
    have h0 : (fetchPage c url (HttpOutcome.failure msg)).status_code = 0 := rfl
    rw [h0] at h5
    exact absurd h5 (by decide)

/-- C5 counterexample: a 500 response repeated past the retry budget is
returned as-is — `status_code` 500, no `error` key — not as the
status-0 fallback dictionary the claim describes (the fallback at
src/crawler.py:169 is only reached when the final attempt raises). -/
theorem claim_C5_counterexample :
    fetchWithRetryTrace (defaultCrawler "https://example.com")
        "https://example.com/page"
        (fun _ => AttemptOutcome.ok (HttpOutcome.response 500 10 [])) zeroJitter =
      ({ url := "https://example.com/page", status_code := 500, latency := 10,
         status := Status.necrosis, links := [], error := none }, 3, [1, 2]) ∧
    (500 : Nat) ≠ 0 := by
  have heval : fetchWithRetryTrace (defaultCrawler "https://example.com")
      "https://example.com/page"
      (fun _ => AttemptOutcome.ok (HttpOutcome.response 500 10 [])) zeroJitter =
      ({ url := "https://example.com/page", status_code := 500, latency := 10,
         status := Status.necrosis, links := [], error := none }, 3,
       [(2 : ℚ) ^ 0 + zeroJitter 0, (2 : ℚ) ^ 1 + zeroJitter 1]) := rfl
  have hq0 : (2 : ℚ) ^ 0 + zeroJitter 0 = 1 := by norm_num [zeroJitter]
  have hq1 : (2 : ℚ) ^ 1 + zeroJitter 1 = 2 := by norm_num [zeroJitter]
  rw [heval, hq0, hq1]
  exact ⟨rfl, by decide⟩

/-- C5 (amended): when `_fetch_with_retry` exhausts its budget, two
cases arise.  If every attempt raised past `_fetch_page`, the fallback
Necrosis dictionary is returned: status_code 0, the last error
description, an empty link set.  If instead the attempts kept returning
5xx responses, the final 5xx response itself is returned: a Necrosis
result with empty links but its actual (nonzero) status code and no
error description.  Either way the crawl continues past the result. -/
theorem claim_C5 (c : SiteCrawler) (url : String)
    (outcomes : Nat → AttemptOutcome) (jitter : Nat → ℚ)
    (hmax : 1 ≤ c.max_retries) :
    (∀ err : Nat → String,
      (∀ a, a < c.max_retries → outcomes a = AttemptOutcome.raised (err a)) →
      fetchWithRetry c url outcomes jitter =
        { url := url, status_code := 0, latency := 0, status := Status.necrosis,
          links := [], error := some (err (c.max_retries - 1)) }) ∧
    (∀ outs : Nat → HttpOutcome,
      (∀ a, a < c.max_retries → outcomes a = AttemptOutcome.ok (outs a) ∧
        (fetchPage c url (outs a)).status_code ∈ retryCodes) →
      fetchWithRetry c url outcomes jitter =
        fetchPage c url (outs (c.max_retries - 1)) ∧
      (fetchPage c url (outs (c.max_retries - 1))).status = Status.necrosis ∧
      (fetchPage c url (outs (c.max_retries - 1))).links = [] ∧
      (fetchPage c url (outs (c.max_retries - 1))).status_code ≠ 0) := by
  constructor
  · intro err hall
    have h := fetchWithRetryGo_all_raised c url outcomes jitter err
      c.max_retries 0 none (by omega) (fun a _ ha2 => hall a ha2)
    rw [fetchWithRetry, fetchWithRetryTrace, h, if_neg (by omega)]
    simp [retryFallback]
  · intro outs hall
    have h := fetchWithRetryGo_all_5xx c url outcomes jitter outs
      c.max_retries 0 none (by omega) (by omega) (fun a _ ha2 => hall a ha2)
    have hshape := fetchPage_retryable_shape c url (outs (c.max_retries - 1))
      (hall (c.max_retries - 1) (by omega)).2
    rw [fetchWithRetry, fetchWithRetryTrace]
    exact ⟨h, hshape⟩

/-- Witness for C5: three attempts all raising the same error yield the
status-0 fallback dictionary carrying that error. -/
theorem claim_C5_witness :
    1 ≤ (defaultCrawler "https://example.com").max_retries ∧
    fetchWithRetry (defaultCrawler "https://example.com") "https://example.com/p"
        (fun _ => AttemptOutcome.raised "boom") zeroJitter =
      { url := "https://example.com/p", status_code := 0, latency := 0,
        status := Status.necrosis, links := [], error := some "boom" } :=
  ⟨by decide,
   (claim_C5 (defaultCrawler "https://example.com") "https://example.com/p"
      (fun _ => AttemptOutcome.raised "boom") zeroJitter (by decide)).1
     (fun _ => "boom") (fun a _ => rfl)⟩

/-- A nonempty string has a nonempty character list. -/
theorem String_data_ne_nil {s : String} (h : s ≠ "") : s.data ≠ [] := by
  intro hd
  apply h
  cases s with
  | mk data =>
    have hd2 : data = [] := hd
    rw [show ("" : String) = String.mk [] from rfl, hd2]

/-- C6 counterexample: with origin `https://example.com` (origin scheme
`https`), the absolute link `http://example.com/x` resolves to a URL
whose scheme+host differ from the origin, yet `_normalize_url` accepts
it and keeps the link's own `http` scheme — the code only compares the
host (`parsed.netloc != self.base_domain`, src/crawler.py:85) and
rebuilds the URL from the resolved scheme, not the origin's. -/
theorem claim_C6_counterexample :
    (defaultCrawler "https://example.com").base_scheme = "https" ∧
    (defaultCrawler "https://example.com").base_domain = "example.com" ∧
    normalizeUrl "example.com" "http://example.com/x" "https://example.com" =
      some "http://example.com/x" ∧
    (urlparseS "http://example.com/x").scheme = "http".data ∧
    "http" ≠ "https" := by
  refine ⟨by decide, by decide, by decide, by decide, by decide⟩

/-- C6 (amended): `_normalize_url` returns `None` whenever the resolved
scheme is not http/https or the resolved host differs from the
crawler's `base_domain`; whenever it returns a URL, that URL parses
back to an http or https scheme — the resolved link's own scheme, not
necessarily the origin's — and to exactly the origin's host. -/
theorem claim_C6 (bd url base : String) (hbd : bd ≠ "") :
    (∀ u, normalizeUrl bd url base = some u →
      ((urlsplitL u.data []).scheme = "http".data ∨
        (urlsplitL u.data []).scheme = "https".data) ∧
      (urlsplitL u.data []).netloc = bd.data) ∧
    (¬ ((urlsplitL (urljoinL base.data url.data) []).scheme = "http".data ∨
        (urlsplitL (urljoinL base.data url.data) []).scheme = "https".data) →
      normalizeUrl bd url base = none) ∧
    ((urlsplitL (urljoinL base.data url.data) []).netloc ≠ bd.data →
      normalizeUrl bd url base = none) := by
  refine ⟨?_, ?_, ?_⟩
  · intro u hu
    exact normalizeUrl_some_parse bd url base u (String_data_ne_nil hbd) hu
  · intro hsch
    simp only [normalizeUrl]
    rw [if_pos hsch]
  · intro hnet
    by_cases hsch : (urlsplitL (urljoinL base.data url.data) []).scheme = "http".data ∨
        (urlsplitL (urljoinL base.data url.data) []).scheme = "https".data
    · simp only [normalizeUrl]
      rw [if_neg (not_not_intro hsch), if_pos hnet]
    · simp only [normalizeUrl]
      rw [if_pos hsch]

/-- Witness for C6 at a concrete same-host link. -/
theorem claim_C6_witness :
    ("example.com" : String) ≠ "" ∧
    (((urlsplitL ("https://example.com/a" : String).data []).scheme = "http".data ∨
      (urlsplitL ("https://example.com/a" : String).data []).scheme = "https".data) ∧
     (urlsplitL ("https://example.com/a" : String).data []).netloc =
       ("example.com" : String).data) :=
  ⟨by decide,
   (claim_C6 "example.com" "/a" "https://example.com" (by decide)).1
     "https://example.com/a" (by decide)⟩

/-- C7 counterexample: the start URL is enqueued and recorded verbatim,
never passed through `_normalize_url`, so starting at
`https://example.com/a/` records a node key that the Normalizer would
change (it strips the trailing slash); moreover even Normalizer outputs
need not be fixed points — `http://example.com///` normalises to
`http://example.com//`, which normalises again to
`http://example.com/`. -/
theorem claim_C7_counterexample :
    (defaultCrawler "https://example.com/a/").base_domain = "example.com" ∧
    ((scan (defaultCrawler "https://example.com/a/") none okWorld zeroJW
        5).2.1.nodes.map (fun n => n.url)) = ["https://example.com/a/"] ∧
    normalizeUrl "example.com" "https://example.com/a/" "https://example.com/a/" =
      some "https://example.com/a" ∧
    ("https://example.com/a/" : String) ≠ "https://example.com/a" ∧
    normalizeUrl "example.com" "http://example.com///" "http://example.com" =
      some "http://example.com//" ∧
    normalizeUrl "example.com" "http://example.com//" "http://example.com//" =
      some "http://example.com/" ∧
    ("http://example.com//" : String) ≠ "http://example.com/" := by
  refine ⟨by decide, by decide, by decide, by decide, by decide, by decide, by decide⟩

/-- C7 (amended): every recorded node's URL is either the start URL
(stored verbatim, not normalised) or an output of `_normalize_url`; in
the latter case, when the crawl's `base_domain` is nonempty, the URL
parses back to an http/https scheme and to exactly the crawl's host. -/
theorem claim_C7 (c : SiteCrawler) (rules : Option (String → Bool))
    (world : Nat → Nat → AttemptOutcome) (jw : Nat → Nat → ℚ) (fuel : Nat)
    (hbd : c.base_domain ≠ "") :
    ∀ n ∈ (scan c rules world jw fuel).2.1.nodes,
      (n.url = c.start_url ∨ InNormalizeImage c n.url) ∧
      (n.url ≠ c.start_url →
        ((urlsplitL n.url.data []).scheme = "http".data ∨
          (urlsplitL n.url.data []).scheme = "https".data) ∧
        (urlsplitL n.url.data []).netloc = c.base_domain.data) := by
  intro n hn
  have hinv := scanLoop_stateInv c rules world jw fuel [(c.start_url, 0, none)]
    initState (initState_inv c) (initQueue_inv c)
  have hsrc := hinv.node_src n hn
  refine ⟨hsrc, ?_⟩
  intro hne
  rcases hsrc with heq | ⟨href, b, himg⟩
  · exact absurd heq hne
  · exact normalizeUrl_some_parse c.base_domain href b n.url
      (String_data_ne_nil hbd) himg

/-- Witness for C7 on a two-page crawl whose second node came from the
Normalizer. -/
theorem claim_C7_witness :
    (defaultCrawler "https://example.com").base_domain ≠ "" ∧
    (((urlsplitL ("https://example.com/a" : String).data []).scheme = "http".data ∨
      (urlsplitL ("https://example.com/a" : String).data []).scheme = "https".data) ∧
     (urlsplitL ("https://example.com/a" : String).data []).netloc =
       (defaultCrawler "https://example.com").base_domain.data) :=
  ⟨by decide,
   (claim_C7 (defaultCrawler "https://example.com") none linkWorld zeroJW 5
      (by decide)
      { url := "https://example.com/a", id := "node_1", depth := 1,
        result := { url := "https://example.com/a", status_code := 200,
                    latency := 0, status := Status.healthy, links := [],
                    error := none } }
      (by decide)).2 (by decide)⟩

/-- C8: evaluating the code at the failing input — `_normalize_url`
keeps the trailing slash on the root path (the strip at
src/crawler.py:92 requires `len(parsed.path) > 1`, and the root path
`/` has length 1), so `normalize("/", "https://example.com")` is
`"https://example.com/"`, not the bare origin `"https://example.com"`
asserted by the claim, by spec §8 and by the repository's own test
`test_trailing_slash_removed`. -/
theorem claim_C8 :
    normalizeUrl "example.com" "/" "https://example.com" =
      some "https://example.com/" ∧
    ("https://example.com/" : String) ≠ "https://example.com" ∧
    normalizeUrl "example.com" "/a/b/c/" "https://example.com" =
      some "https://example.com/a/b/c" := by
  refine ⟨by decide, by decide, by decide⟩

/-- The fetch world of the C9 counterexample: the (empty) start page
links to `http:foo`, which then 404s. -/
def emptyStartWorld : Nat → Nat → AttemptOutcome :=
  fun i _ =>
    if i = 0 then AttemptOutcome.ok (HttpOutcome.response 200 10 ["http:foo"])
    else AttemptOutcome.ok (HttpOutcome.response 404 5 [])

/-- C9 counterexample: with the degenerate start URL `""`, a discovered
child's parent key is the falsy empty string, so no edge is recorded
(src/crawler.py:295 tests `if parent_url`), the child is an orphan, and
each `generate_report` call increments `orphan_pages` again — the
second report differs from the first. -/
theorem claim_C9_counterexample :
    (generateReport (defaultCrawler "")
        (scan (defaultCrawler "") none emptyStartWorld zeroJW
          10).2.1).1.summary.orphan_pages = 1 ∧
    (generateReport (defaultCrawler "")
        (generateReport (defaultCrawler "")
          (scan (defaultCrawler "") none emptyStartWorld zeroJW
            10).2.1).2).1.summary.orphan_pages = 2 := by
  refine ⟨by decide, by decide⟩

/-- C9 (amended): for every crawl whose start URL is nonempty, every
non-start node has a recorded inbound edge, so `generate_report` finds
no orphans, leaves the statistics counters (and the whole crawl state)
unchanged, and calling it twice on the same finished crawl yields the
same report as calling it once. -/
theorem claim_C9 (c : SiteCrawler) (rules : Option (String → Bool))
    (world : Nat → Nat → AttemptOutcome) (jw : Nat → Nat → ℚ) (fuel : Nat)
    (hstart : c.start_url ≠ "") :
    (generateReport c (scan c rules world jw fuel).2.1).2 =
      (scan c rules world jw fuel).2.1 ∧
    (generateReport c (generateReport c (scan c rules world jw fuel).2.1).2).1 =
      (generateReport c (scan c rules world jw fuel).2.1).1 := by
  have hinv := scanLoop_stateInv c rules world jw fuel [(c.start_url, 0, none)]
    initState (initState_inv c) (initQueue_inv c)
  have hstable := generateReport_stable c (scan c rules world jw fuel).2.1 hinv hstart
  refine ⟨hstable, ?_⟩
  rw [hstable]

/-- Witness for C9 on a concrete two-page crawl. -/
theorem claim_C9_witness :
    ((defaultCrawler "https://example.com").start_url ≠ "") ∧
    ((generateReport (defaultCrawler "https://example.com")
        (scan (defaultCrawler "https://example.com") none linkWorld zeroJW
          5).2.1).2 =
      (scan (defaultCrawler "https://example.com") none linkWorld zeroJW 5).2.1 ∧
    (generateReport (defaultCrawler "https://example.com")
        (generateReport (defaultCrawler "https://example.com")
          (scan (defaultCrawler "https://example.com") none linkWorld zeroJW
            5).2.1).2).1 =
      (generateReport (defaultCrawler "https://example.com")
        (scan (defaultCrawler "https://example.com") none linkWorld zeroJW
          5).2.1).1) :=
  ⟨by decide,
   claim_C9 (defaultCrawler "https://example.com") none linkWorld zeroJW 5
     (by decide)⟩
